import Mathlib

/-!
Schematic agent and Ollama reply interpreter.

A shallow embedding of

* `eeschema/tools/sch_agent.cpp` (`SCH_AGENT`: the batched drafting session),
* `eeschema/tools/sch_ollama_agent_tool.cpp` (`SCH_OLLAMA_AGENT_TOOL::ParseAndExecute`:
  the line-oriented interpreter of a model reply), and
* `eeschema/tools/ollama_client.cpp` (`OLLAMA_CLIENT::ChatCompletion`: what is made of the
  reply of the server),

followed by theorems about them.

Conventions.

* A `wxString` is the list of its characters.
* Library calls (`wxStringTokenizer`, `wxString::Trim`, `Upper`, `StartsWith`, `Find`, `Mid`,
  `SubString`, `AfterFirst`, `wxSscanf`) are embedded by their documented behaviour, in the
  "C" locale, with the six ASCII white-space characters.
* `wxSscanf` forwards to `swscanf`, and the conversion `%lf` is embedded as the GNU C library
  carries it out: the characters that can belong to a number are collected one at a time and
  consumed, and the conversion succeeds when `strtod` reads a number at the beginning of what
  was collected. So `1e` is read whole as the number 1, and of `nan(abc)` only `nan` is read.
* A `double` read by `%lf` is represented by the characters consumed for it; its
  floating-point value is not interpreted, and the conversion of such a value to internal
  units (`schIUScale.mmToIU`) is a parameter `mmToIU`.
* `SCH_COMMIT`, the document primitives and the HTTP transport are not part of these files;
  they are modelled from the specification, and the definitions concerned say so.
-/

namespace KiCad

/-! ## Data model -/

/-- A `wxString`: the sequence of its characters. -/
abbrev wxString := List Char

/-- A `VECTOR2I`: a pair of integer coordinates in internal units. -/
structure VECTOR2I where
  x : Int
  y : Int
deriving DecidableEq, Repr

/-- Modelled from the spec: the layer identifiers of `layer_ids.h` (not under `src/`) that a
`SCH_LINE` can carry here; `LAYER_NOTES` is the layer of a default-constructed line and
`LAYER_WIRE` "the fixed default visual layer" that `AddWire` sets. -/
inductive SCH_LAYER_ID where
  | LAYER_WIRE
  | LAYER_BUS
  | LAYER_NOTES
deriving DecidableEq, Repr

/-- Modelled from the spec: the line style of `stroke_params.h` (not under `src/`). -/
inductive LINE_STYLE where
  | DEFAULT
  | SOLID
  | DASH
deriving DecidableEq, Repr

/-- Modelled from the spec: `STROKE_PARAMS` of `stroke_params.h` (not under `src/`), reduced to
a width and a line style. -/
structure STROKE_PARAMS where
  width : Int
  style : LINE_STYLE
deriving DecidableEq, Repr

/-- Modelled from the spec: the default-constructed stroke `STROKE_PARAMS()`, "the default
stroke" that `AddWire` sets. -/
def STROKE_PARAMS.default : STROKE_PARAMS := ⟨0, LINE_STYLE.DEFAULT⟩

/-- The document primitives built by the agent, each with the fields the agent sets. -/
inductive SCH_ITEM where
  | SCH_JUNCTION (pos : VECTOR2I)
  | SCH_LINE (start finish : VECTOR2I) (layer : SCH_LAYER_ID) (stroke : STROKE_PARAMS)
  | SCH_LABEL (pos : VECTOR2I) (text : wxString)
  | SCH_TEXT (pos : VECTOR2I) (text : wxString)
deriving DecidableEq, Repr

/-- A `SCH_SCREEN*` that is not null: the identity of a document surface. -/
abbrev SCH_SCREEN := Nat

/-- One entry of the undo history: a pushed transaction, that is one call of
`SCH_COMMIT::Push`, with its description and the primitives it inserts (each with the surface
it was added against), in insertion order. -/
structure Transaction where
  description : String
  items : List (SCH_ITEM × SCH_SCREEN)
deriving DecidableEq, Repr

/-- The part of `SCH_EDIT_FRAME` the agent reads and writes: the current screen (`none` is a
null pointer) and the undo history, oldest transaction first. -/
structure SCH_EDIT_FRAME where
  screen : Option SCH_SCREEN
  undoList : List Transaction
deriving DecidableEq, Repr

/-- `SCH_EDIT_FRAME::GetScreen`. -/
def SCH_EDIT_FRAME.GetScreen (f : SCH_EDIT_FRAME) : Option SCH_SCREEN := f.screen

/-- Modelled from the spec: `SCH_COMMIT` of `sch_commit.h` (not under `src/`), the pending
transaction: the primitives registered for insertion so far, in call order. -/
structure SCH_COMMIT where
  staged : List (SCH_ITEM × SCH_SCREEN)
deriving DecidableEq, Repr

/-- Modelled from the spec: `std::make_unique<SCH_COMMIT>( aFrame )`, a fresh pending
transaction, which is empty. -/
def SCH_COMMIT.fresh : SCH_COMMIT := ⟨[]⟩

/-- Modelled from the spec: `SCH_COMMIT::Add` ("add-to-pending"), which registers a primitive
for insertion against a document surface, after those already registered. -/
def SCH_COMMIT.Add (c : SCH_COMMIT) (item : SCH_ITEM) (screen : SCH_SCREEN) : SCH_COMMIT :=
  ⟨c.staged ++ [(item, screen)]⟩

/-- Modelled from the spec: `SCH_COMMIT::Push` ("push-with-message"), which commits the pending
transaction to the undo history of the frame under a description; a transaction without
primitives is "empty but still pushed". -/
def SCH_COMMIT.Push (c : SCH_COMMIT) (aMessage : String) (f : SCH_EDIT_FRAME) :
    SCH_EDIT_FRAME :=
  { f with undoList := f.undoList ++ [⟨aMessage, c.staged⟩] }

/-- The members of `SCH_AGENT`. `m_frame` is a pointer in the source; here it is the state of
the frame the agent points to. `m_commit` is never null: every assignment to it is a
`std::make_unique`. -/
structure SCH_AGENT where
  m_frame : SCH_EDIT_FRAME
  m_screen : Option SCH_SCREEN
  m_commit : SCH_COMMIT
  m_inBatch : Bool
deriving DecidableEq, Repr

namespace SCH_AGENT

/-- The constructor `SCH_AGENT::SCH_AGENT( aFrame )`. -/
def new (aFrame : SCH_EDIT_FRAME) : SCH_AGENT :=
  { m_frame := aFrame
    m_screen := aFrame.GetScreen
    m_commit := SCH_COMMIT.fresh
    m_inBatch := false }

/-- `SCH_AGENT::AddJunction`. -/
def AddJunction (a : SCH_AGENT) (aPos : VECTOR2I) : Bool × SCH_AGENT :=
  match a.m_screen with
  | none => (false, a)
  | some scr =>
    let junction := SCH_ITEM.SCH_JUNCTION aPos
    let a1 := { a with m_commit := a.m_commit.Add junction scr }
    if !a1.m_inBatch then
      (true, { a1 with m_frame := a1.m_commit.Push "Added junction" a1.m_frame,
                       m_commit := SCH_COMMIT.fresh })
    else
      (true, a1)

/-- `SCH_AGENT::AddWire`. -/
def AddWire (a : SCH_AGENT) (aStart aEnd : VECTOR2I) : Bool × SCH_AGENT :=
  match a.m_screen with
  | none => (false, a)
  | some scr =>
    let wire := SCH_ITEM.SCH_LINE aStart aEnd SCH_LAYER_ID.LAYER_WIRE STROKE_PARAMS.default
    let a1 := { a with m_commit := a.m_commit.Add wire scr }
    if !a1.m_inBatch then
      (true, { a1 with m_frame := a1.m_commit.Push "Added wire" a1.m_frame,
                       m_commit := SCH_COMMIT.fresh })
    else
      (true, a1)

/-- `SCH_AGENT::AddLabel`. -/
def AddLabel (a : SCH_AGENT) (aPos : VECTOR2I) (aText : wxString) : Bool × SCH_AGENT :=
  match a.m_screen with
  | none => (false, a)
  | some scr =>
    let label := SCH_ITEM.SCH_LABEL aPos aText
    let a1 := { a with m_commit := a.m_commit.Add label scr }
    if !a1.m_inBatch then
      (true, { a1 with m_frame := a1.m_commit.Push "Added label" a1.m_frame,
                       m_commit := SCH_COMMIT.fresh })
    else
      (true, a1)

/-- `SCH_AGENT::AddText`. -/
def AddText (a : SCH_AGENT) (aPos : VECTOR2I) (aText : wxString) : Bool × SCH_AGENT :=
  match a.m_screen with
  | none => (false, a)
  | some scr =>
    let text := SCH_ITEM.SCH_TEXT aPos aText
    let a1 := { a with m_commit := a.m_commit.Add text scr }
    if !a1.m_inBatch then
      (true, { a1 with m_frame := a1.m_commit.Push "Added text" a1.m_frame,
                       m_commit := SCH_COMMIT.fresh })
    else
      (true, a1)

/-- `SCH_AGENT::BeginBatch`. -/
def BeginBatch (a : SCH_AGENT) : SCH_AGENT :=
  { a with m_inBatch := true, m_commit := SCH_COMMIT.fresh }

/-- `SCH_AGENT::EndBatch`. The test `m_commit` of the source (the pointer is not null) always
succeeds. -/
def EndBatch (a : SCH_AGENT) (aMessage : String) : SCH_AGENT :=
  let a1 :=
    if a.m_inBatch then
      { a with m_frame := a.m_commit.Push aMessage a.m_frame, m_commit := SCH_COMMIT.fresh }
    else
      a
  { a1 with m_inBatch := false }

end SCH_AGENT

/-- One call of an `AddX` method of the agent, with its arguments. -/
inductive AgentCall where
  | AddJunction (aPos : VECTOR2I)
  | AddWire (aStart aEnd : VECTOR2I)
  | AddLabel (aPos : VECTOR2I) (aText : wxString)
  | AddText (aPos : VECTOR2I) (aText : wxString)
deriving DecidableEq, Repr

namespace AgentCall

/-- Perform the call on an agent: the returned flag and the agent afterwards. -/
def run (c : AgentCall) (a : SCH_AGENT) : Bool × SCH_AGENT :=
  match c with
  | AddJunction p => a.AddJunction p
  | AddWire s e => a.AddWire s e
  | AddLabel p t => a.AddLabel p t
  | AddText p t => a.AddText p t

/-- The primitive the call builds. -/
def item (c : AgentCall) : SCH_ITEM :=
  match c with
  | AddJunction p => SCH_ITEM.SCH_JUNCTION p
  | AddWire s e => SCH_ITEM.SCH_LINE s e SCH_LAYER_ID.LAYER_WIRE STROKE_PARAMS.default
  | AddLabel p t => SCH_ITEM.SCH_LABEL p t
  | AddText p t => SCH_ITEM.SCH_TEXT p t

/-- The fixed description under which the call commits outside a batch. -/
def description (c : AgentCall) : String :=
  match c with
  | AddJunction _ => "Added junction"
  | AddWire _ _ => "Added wire"
  | AddLabel _ _ => "Added label"
  | AddText _ _ => "Added text"

end AgentCall

/-- Perform a sequence of `AddX` calls in order, ignoring the returned flags. -/
def runCalls (cs : List AgentCall) (a : SCH_AGENT) : SCH_AGENT :=
  cs.foldl (fun s c => (c.run s).2) a

/-- The operations of a session: the four `AddX` methods, `BeginBatch` and `EndBatch`. -/
inductive AgentOp where
  | add (c : AgentCall)
  | beginBatch
  | endBatch (aMessage : String)
deriving DecidableEq, Repr

/-- Perform one operation of a session. -/
def AgentOp.run (op : AgentOp) (a : SCH_AGENT) : SCH_AGENT :=
  match op with
  | add c => (c.run a).2
  | beginBatch => a.BeginBatch
  | endBatch m => a.EndBatch m

/-- Perform a sequence of operations in order. -/
def runOps (ops : List AgentOp) (a : SCH_AGENT) : SCH_AGENT :=
  ops.foldl (fun s op => op.run s) a

/-! ## Library string operations -/

/-- The white-space test of `wxString::Trim` and of `scanf`: space, tab, line feed, vertical
tab, form feed, carriage return. -/
def isspace (c : Char) : Bool :=
  c = ' ' || c = '\t' || c = '\n' || c = '\x0b' || c = '\x0c' || c = '\r'

/-- Cut a text at every line feed; the pieces may be empty. -/
def splitLines : List Char → List wxString
  | [] => [[]]
  | c :: cs =>
    if c = '\n' then [] :: splitLines cs
    else
      match splitLines cs with
      | [] => [[c]]
      | l :: ls => (c :: l) :: ls

/-- The tokens returned by `wxStringTokenizer( aResponse, "\n" )`. The delimiters are all white
space, so the default mode is `wxTOKEN_STRTOK`: an empty token is never returned. -/
def tokens (aResponse : wxString) : List wxString :=
  (splitLines aResponse).filter (fun t => !t.isEmpty)

/-- `wxString::Trim()` with its default argument: white space is removed from the right end
only. -/
def Trim (s : wxString) : wxString :=
  (s.reverse.dropWhile isspace).reverse

/-- `wxString::Upper`. -/
def Upper (s : wxString) : wxString := s.map Char.toUpper

/-- `wxString::StartsWith`. -/
def StartsWith (s : wxString) (pre : String) : Bool := pre.toList.isPrefixOf s

/-- `wxString::Find` for a one-character string: the index of the first occurrence, or `none`
for `wxNOT_FOUND`. -/
def Find (s : wxString) (c : Char) : Option Nat :=
  if s.indexOf c < s.length then some (s.indexOf c) else none

/-- `wxString::Mid( nFirst )`: everything from index `nFirst` on. -/
def Mid (s : wxString) (nFirst : Nat) : wxString := s.drop nFirst

/-- `wxString::SubString( from, to )`, which is `Mid( from, to - from + 1 )`: the characters at
indices `from` to `to`, both included. -/
def SubString (s : wxString) (first last : Nat) : wxString :=
  (s.drop first).take (last + 1 - first)

/-- `wxString::AfterFirst( ch )`: everything after the first occurrence of `ch`, and the empty
string when `ch` does not occur. -/
def AfterFirst (s : wxString) (ch : Char) : wxString :=
  (s.dropWhile (fun c => c != ch)).drop 1

/-! ## `wxSscanf` with the formats `KEYWORD %lf ... %lf` -/

/-- A `double` as read by `%lf`: the characters that were consumed for it (sign, digits, point,
exponent, ...). Its floating-point value is `strtod` of these characters and is not
interpreted. -/
abbrev ScannedDouble := List Char

/-- An optional sign: the sign read and the input after it. -/
def scanSign (s : List Char) : List Char × List Char :=
  match s with
  | [] => ([], [])
  | c :: r => if c = '+' || c = '-' then ([c], r) else ([], c :: r)

/-- Match a lower-case word without regard to case: the characters read and the input after
them. -/
def scanWord : List Char → List Char → Option (List Char × List Char)
  | [], s => some ([], s)
  | _ :: _, [] => none
  | w :: ws, c :: r =>
    if c.toLower = w then
      match scanWord ws r with
      | none => none
      | some (m, r1) => some (c :: m, r1)
    else none

/-- The test for a hexadecimal digit. -/
def isHexDigit (c : Char) : Bool :=
  c.isDigit || ('a' ≤ c.toLower && c.toLower ≤ 'f')

/-- The loop of the GNU C library that collects the characters of a number for `%lf`, one
character at a time: a decimal digit; a hexadecimal digit of a hexadecimal number before its
exponent; a sign right after the exponent letter; the exponent letter (`e`, or `p` for a
hexadecimal number) once a digit was read; a point when neither a point nor an exponent
letter was read. Any other character ends the loop and stays in the input. The flags are
`hexa` (the number began with `0x`), `gotDigit`, `gotDot`, `gotE` and `afterExp` (the last
character collected is the exponent letter). The result is the characters collected and the
input after them. -/
def scanNumberChars (hexa gotDigit gotDot gotE afterExp : Bool) :
    List Char → List Char × List Char
  | [] => ([], [])
  | c :: r =>
    if c.isDigit then
      (c :: (scanNumberChars hexa true gotDot gotE false r).1,
        (scanNumberChars hexa true gotDot gotE false r).2)
    else if !gotE && hexa && isHexDigit c then
      (c :: (scanNumberChars hexa true gotDot gotE false r).1,
        (scanNumberChars hexa true gotDot gotE false r).2)
    else if gotE && afterExp && (c = '-' || c = '+') then
      (c :: (scanNumberChars hexa gotDigit gotDot gotE false r).1,
        (scanNumberChars hexa gotDigit gotDot gotE false r).2)
    else if gotDigit && !gotE && c.toLower = (if hexa then 'p' else 'e') then
      (c :: (scanNumberChars hexa gotDigit true true true r).1,
        (scanNumberChars hexa gotDigit true true true r).2)
    else if !gotDot && c = '.' then
      (c :: (scanNumberChars hexa gotDigit true gotE false r).1,
        (scanNumberChars hexa gotDigit true gotE false r).2)
    else ([], c :: r)

/-- What follows the sign of a floating-point number, as the GNU C library reads it.
`nan` in any case is read as such, and a bracket after it stays in the input. `inf` is read
as such, and when an `i` follows, `inity` must follow. After `0x` the characters of a
hexadecimal number are collected, and the conversion fails when there is none. Otherwise the
characters of a decimal number are collected, and the conversion fails when no digit is
among them. The characters collected are consumed whole, also when `strtod` takes its value
from a beginning of them only (`1e` and `1e+` are read as 1, `0x.` as 0). -/
def scanUnsigned (s : List Char) : Option (List Char × List Char) :=
  match s with
  | [] => none
  | c :: r =>
    if c.toLower = 'n' then scanWord ['n', 'a', 'n'] s
    else if c.toLower = 'i' then
      match scanWord ['i', 'n', 'f'] s with
      | none => none
      | some (m, r1) =>
        match r1 with
        | [] => some (m, [])
        | d :: _ =>
          if d.toLower = 'i' then
            match scanWord ['i', 'n', 'i', 't', 'y'] r1 with
            | none => none
            | some (m1, r2) => some (m ++ m1, r2)
          else some (m, r1)
    else if c = '0' then
      match r with
      | [] => some ([c], [])
      | x :: r1 =>
        if x.toLower = 'x' then
          if (scanNumberChars true false false false false r1).1.isEmpty then none
          else
            some (c :: x :: (scanNumberChars true false false false false r1).1,
              (scanNumberChars true false false false false r1).2)
        else
          some (c :: (scanNumberChars false true false false false r).1,
            (scanNumberChars false true false false false r).2)
    else
      if (scanNumberChars false false false false false s).1.any Char.isDigit then
        some (scanNumberChars false false false false false s)
      else none

/-- The conversion `%lf`: skip white space, read an optional sign, then what follows the sign.
The result is the characters consumed for the number and the input after them, or `none`
when the conversion fails. -/
def scanDouble (s : List Char) : Option (ScannedDouble × List Char) :=
  let sg := scanSign (s.dropWhile isspace)
  match scanUnsigned sg.2 with
  | none => none
  | some (m, r) => some (sg.1 ++ m, r)

/-- The directives ` %lf` repeated `n` times: the values assigned, up to the first conversion
that fails. -/
def scanDoubles : Nat → List Char → List ScannedDouble
  | 0, _ => []
  | n + 1, s =>
    match scanDouble (s.dropWhile isspace) with
    | none => []
    | some (x, r) => x :: scanDoubles n r

/-- The call `wxSscanf( line, "KEYWORD %lf ... %lf", ... )` with `n` conversions: the keyword
must match the beginning of the line character for character; the result is the list of
values assigned, whose length is the value `wxSscanf` returns when it is positive. -/
def wxSscanf (line : wxString) (keyword : String) (n : Nat) : List ScannedDouble :=
  if keyword.toList.isPrefixOf line then scanDoubles n (line.drop keyword.length) else []

/-! ## `SCH_OLLAMA_AGENT_TOOL::ParseAndExecute` -/

/-- The text of a `LABEL` or `TEXT` line, as both branches extract it. -/
def extractText (line : wxString) : wxString :=
  match Find line '"' with
  | some textStart =>
    match Find (Mid line (textStart + 1)) '"' with
    | some textEndInSub => SubString line (textStart + 1) (textStart + textEndInSub)
    | none => []
  | none => AfterFirst (AfterFirst (AfterFirst line ' ') ' ') ' '

/-- The body of the `while` loop of `ParseAndExecute` for one token: the state is the flag
`success` and the agent. The flags returned by the agent are ignored, as in the source. -/
def loopBody (mmToIU : ScannedDouble → Int) (st : Bool × SCH_AGENT) (token : wxString) :
    Bool × SCH_AGENT :=
  let line := Trim token
  if line.isEmpty || StartsWith line "#" then st
  else if StartsWith (Upper line) "JUNCTION" then
    match wxSscanf line "JUNCTION" 2 with
    | [x, y] =>
      let pos : VECTOR2I := ⟨mmToIU x, mmToIU y⟩
      (true, (st.2.AddJunction pos).2)
    | _ => st
  else if StartsWith (Upper line) "WIRE" then
    match wxSscanf line "WIRE" 4 with
    | [x1, y1, x2, y2] =>
      let start : VECTOR2I := ⟨mmToIU x1, mmToIU y1⟩
      let finish : VECTOR2I := ⟨mmToIU x2, mmToIU y2⟩
      (true, (st.2.AddWire start finish).2)
    | _ => st
  else if StartsWith (Upper line) "LABEL" then
    match wxSscanf line "LABEL" 2 with
    | [x, y] =>
      let text := extractText line
      if !text.isEmpty then
        let pos : VECTOR2I := ⟨mmToIU x, mmToIU y⟩
        (true, (st.2.AddLabel pos text).2)
      else st
    | _ => st
  else if StartsWith (Upper line) "TEXT" then
    match wxSscanf line "TEXT" 2 with
    | [x, y] =>
      let text := extractText line
      if !text.isEmpty then
        let pos : VECTOR2I := ⟨mmToIU x, mmToIU y⟩
        (true, (st.2.AddText pos text).2)
      else st
    | _ => st
  else st

/-- `SCH_OLLAMA_AGENT_TOOL::ParseAndExecute`: the returned flag and the agent afterwards. -/
def ParseAndExecute (mmToIU : ScannedDouble → Int) (m_agent : SCH_AGENT)
    (aResponse : wxString) : Bool × SCH_AGENT :=
  let st := (tokens aResponse).foldl (loopBody mmToIU) (false, m_agent.BeginBatch)
  (st.1, st.2.EndBatch "Ollama agent operation")

/-- The call of the agent that the loop body makes for a line already trimmed and neither
empty nor a comment, if it makes one. -/
def parseLine (mmToIU : ScannedDouble → Int) (line : wxString) : Option AgentCall :=
  if StartsWith (Upper line) "JUNCTION" then
    match wxSscanf line "JUNCTION" 2 with
    | [x, y] => some (AgentCall.AddJunction ⟨mmToIU x, mmToIU y⟩)
    | _ => none
  else if StartsWith (Upper line) "WIRE" then
    match wxSscanf line "WIRE" 4 with
    | [x1, y1, x2, y2] =>
      some (AgentCall.AddWire ⟨mmToIU x1, mmToIU y1⟩ ⟨mmToIU x2, mmToIU y2⟩)
    | _ => none
  else if StartsWith (Upper line) "LABEL" then
    match wxSscanf line "LABEL" 2 with
    | [x, y] =>
      if !(extractText line).isEmpty then
        some (AgentCall.AddLabel ⟨mmToIU x, mmToIU y⟩ (extractText line))
      else none
    | _ => none
  else if StartsWith (Upper line) "TEXT" then
    match wxSscanf line "TEXT" 2 with
    | [x, y] =>
      if !(extractText line).isEmpty then
        some (AgentCall.AddText ⟨mmToIU x, mmToIU y⟩ (extractText line))
      else none
    | _ => none
  else none

/-- The call of the agent that the loop body makes for one token, if it makes one. -/
def lineCall (mmToIU : ScannedDouble → Int) (token : wxString) : Option AgentCall :=
  if (Trim token).isEmpty || StartsWith (Trim token) "#" then none
  else parseLine mmToIU (Trim token)

/-- The calls of the agent that `ParseAndExecute` makes between `BeginBatch` and `EndBatch`, in
order: the commands emitted for a reply. -/
def emitted (mmToIU : ScannedDouble → Int) (aResponse : wxString) : List AgentCall :=
  (tokens aResponse).filterMap (lineCall mmToIU)

/-- The space-separated tokens of a line, in the words of the specification: the line cut at
every space character; a token may be empty. -/
def spaceTokens : List Char → List (List Char)
  | [] => [[]]
  | c :: cs =>
    if c = ' ' then [] :: spaceTokens cs
    else
      match spaceTokens cs with
      | [] => [[c]]
      | t :: ts => (c :: t) :: ts

/-- Tokens put together again with one space between neighbours. -/
def joinWithSpaces : List (List Char) → List Char
  | [] => []
  | [t] => t
  | t :: u :: ts => t ++ ' ' :: joinWithSpaces (u :: ts)

/-- The fallback rule in the words of the specification: "the remainder of the line after the
third space-separated token". -/
def remainderAfterThirdToken (line : List Char) : List Char :=
  joinWithSpaces ((spaceTokens line).drop 3)

/-- A sample conversion to internal units, used to evaluate examples: a number made of
decimal digits, with an optional minus sign, is read as that integer number of millimetres,
at 10000 internal units per millimetre. -/
def sampleMmToIU (x : ScannedDouble) : Int :=
  match x with
  | [] => 0
  | c :: r =>
    if c = '-' then
      -((r.foldl (fun n d => 10 * n + (d.toNat - 48)) 0 : Nat) : Int) * 10000
    else
      ((x.foldl (fun n d => 10 * n + (d.toNat - 48)) 0 : Nat) : Int) * 10000

/-! ## Predicates and samples used in the statements -/

/-- The invariant of a bound session: the surface stays bound, and outside a batch the pending
transaction is empty. -/
def SessionInv (scr : SCH_SCREEN) (a : SCH_AGENT) : Prop :=
  a.m_screen = some scr ∧ (a.m_inBatch = false → a.m_commit = SCH_COMMIT.fresh)

/-- A session with a bound surface, used in examples: a frame showing screen `7` whose undo
history is empty. -/
def sampleFrame : SCH_EDIT_FRAME := ⟨some 7, []⟩

/-- A session without a bound surface, used in examples. -/
def unboundFrame : SCH_EDIT_FRAME := ⟨none, []⟩

/-- A line is blank when it holds white space only. -/
def isBlank (l : List Char) : Bool := l.all isspace

/-- A line is a comment when its first character, after white space if any, is `#`. -/
def isComment (l : List Char) : Bool := (l.dropWhile isspace).head? = some '#'

/-- The result of a scanner with `r` put back after the input that was left. -/
def extend (r : List Char) (o : Option (List Char × List Char)) :
    Option (List Char × List Char) :=
  o.map (fun mr => (mr.1, mr.2 ++ r))

/-- A token: not empty and without white space. -/
def isToken (t : List Char) : Bool := !t.isEmpty && t.all (fun c => !isspace c)

/-- A token that is a number for the code: `%lf` consumes the whole of it, and nothing
else. -/
def wellFormedNumber (t : List Char) : Bool := scanDouble t == some (t, [])

/-! ## `OLLAMA_CLIENT::ChatCompletion` -/

/-- A JSON value as `nlohmann::json` holds it after `json::parse`. An object is the list of
its members; a number is kept as an integer. -/
inductive json where
  | null
  | boolean (b : Bool)
  | number (n : Int)
  | string (s : String)
  | array (items : List json)
  | object (members : List (String × json))

/-- `json::contains( key )`: whether the value is an object with a member of that name; it is
`false` for every value that is not an object. -/
def json.contains (j : json) (key : String) : Bool :=
  match j with
  | json.object members => members.any (fun kv => kv.1 == key)
  | _ => false

/-- `json::operator[]( key )` on an object that has the member: the value of the member. For
the other cases, which `ChatCompletion` excludes with `contains`, the result is `null`. -/
def json.at (j : json) (key : String) : json :=
  match j with
  | json.object members =>
    match members.find? (fun kv => kv.1 == key) with
    | some kv => kv.2
    | none => json.null
  | _ => json.null

/-- `json::get<std::string>()`: the text of a string value, and `none` when the value is not
a string, in which case the library throws `json::type_error`. -/
def json.get_string (j : json) : Option String :=
  match j with
  | json.string s => some s
  | _ => none

/-- The field `key` of a reply body, in the words of the specification: the value of the
member of that name when the body is a JSON object that has one. -/
def json.field (j : json) (key : String) : Option json :=
  match j with
  | json.object members => (members.find? (fun kv => kv.1 == key)).map (fun kv => kv.2)
  | _ => none

/-- Modelled from the spec: the transport `KICAD_CURL_EASY` of `kicad_curl_easy.h` (not under
`src/`), reduced to what one request yields: the code returned by `Perform()`, `0` for a
successful transport, and the body read by `GetBuffer()` as `json::parse` returns it, `none`
when `json::parse` throws `json::parse_error`. -/
structure KICAD_CURL_EASY where
  performResult : Int
  parsedBuffer : Option json

/-- `OLLAMA_CLIENT::ChatCompletion`: the returned flag and `aResponse` afterwards. `m_curl` is
`none` for a null pointer. The model name and the prompt go into the request only; what the
request yields is in `m_curl`. An exception of the library inside the `try` block is caught
and gives `false`. -/
def ChatCompletion (m_curl : Option KICAD_CURL_EASY) (aResponse : String) : Bool × String :=
  match m_curl with
  | none => (false, aResponse)
  | some curl =>
    if curl.performResult ≠ 0 then (false, aResponse)
    else
      match curl.parsedBuffer with
      | none => (false, aResponse)
      | some response =>
        if response.contains "response" then
          match (response.at "response").get_string with
          | some text => (true, text)
          | none => (false, aResponse)
        else if response.contains "error" then
          match (response.at "error").get_string with
          | some _ => (false, aResponse)
          | none => (false, aResponse)
        else (false, aResponse)

/-- The first white-space-delimited token of a line, in the words of the specification: the
characters from the first one that is not white space up to the next white space. -/
def firstToken (line : List Char) : List Char :=
  (line.dropWhile isspace).takeWhile (fun c => !isspace c)

/-- The four keywords of the command language. -/
def keywords : List (List Char) :=
  ["JUNCTION".toList, "WIRE".toList, "LABEL".toList, "TEXT".toList]

/-! ## The batched drafting session -/

/-- On a bound session every `AddX` call returns `true`; in batch mode it appends its primitive
to the pending transaction, outside a batch it pushes the pending transaction extended by its
primitive under its fixed description and starts an empty one. -/
theorem AgentCall.run_bound (c : AgentCall) (a : SCH_AGENT) (scr : SCH_SCREEN)
    (h : a.m_screen = some scr) :
    c.run a =
      (true,
        if a.m_inBatch then
          { a with m_commit := ⟨a.m_commit.staged ++ [(c.item, scr)]⟩ }
        else
          { a with
            m_frame :=
              { a.m_frame with
                undoList := a.m_frame.undoList ++
                  [⟨c.description, a.m_commit.staged ++ [(c.item, scr)]⟩] }
            m_commit := SCH_COMMIT.fresh }) := by
  cases c <;> cases hb : a.m_inBatch <;>
    simp [AgentCall.run, AgentCall.item, AgentCall.description, SCH_AGENT.AddJunction,
      SCH_AGENT.AddWire, SCH_AGENT.AddLabel, SCH_AGENT.AddText, h, hb, SCH_COMMIT.Add,
      SCH_COMMIT.Push]

/-- On an unbound session every `AddX` call returns `false` and changes nothing. -/
theorem AgentCall.run_unbound (c : AgentCall) (a : SCH_AGENT) (h : a.m_screen = none) :
    c.run a = (false, a) := by
  cases c <;>
    simp [AgentCall.run, SCH_AGENT.AddJunction, SCH_AGENT.AddWire, SCH_AGENT.AddLabel,
      SCH_AGENT.AddText, h]

theorem runCalls_nil (a : SCH_AGENT) : runCalls [] a = a := rfl

theorem runCalls_cons (c : AgentCall) (cs : List AgentCall) (a : SCH_AGENT) :
    runCalls (c :: cs) a = runCalls cs (c.run a).2 := rfl

theorem runCalls_append (cs ds : List AgentCall) (a : SCH_AGENT) :
    runCalls (cs ++ ds) a = runCalls ds (runCalls cs a) := by
  simp [runCalls, List.foldl_append]

/-- In batch mode on a bound session, a sequence of `AddX` calls only extends the pending
transaction, by the primitives of the calls in call order. -/
theorem runCalls_inBatch (cs : List AgentCall) (a : SCH_AGENT) (scr : SCH_SCREEN)
    (h : a.m_screen = some scr) (hb : a.m_inBatch = true) :
    runCalls cs a =
      { a with m_commit := ⟨a.m_commit.staged ++ cs.map (fun c => (c.item, scr))⟩ } := by
  induction cs generalizing a with
  | nil => simp [runCalls_nil]
  | cons c cs ih =>
    rw [runCalls_cons, AgentCall.run_bound c a scr h]
    simp only [hb, if_true]
    rw [ih]
    · simp
    · exact h
    · rfl

/-- On an unbound session a sequence of `AddX` calls changes nothing. -/
theorem runCalls_unbound (cs : List AgentCall) (a : SCH_AGENT) (h : a.m_screen = none) :
    runCalls cs a = a := by
  induction cs with
  | nil => rfl
  | cons c cs ih => rw [runCalls_cons, AgentCall.run_unbound c a h]; exact ih

theorem SessionInv_new (f : SCH_EDIT_FRAME) (scr : SCH_SCREEN) (hf : f.screen = some scr) :
    SessionInv scr (SCH_AGENT.new f) := by
  simp [SessionInv, SCH_AGENT.new, SCH_EDIT_FRAME.GetScreen, hf]

theorem SessionInv_step (scr : SCH_SCREEN) (op : AgentOp) (a : SCH_AGENT)
    (h : SessionInv scr a) : SessionInv scr (op.run a) := by
  obtain ⟨hs, hc⟩ := h
  cases op with
  | add c =>
    simp only [AgentOp.run]
    rw [AgentCall.run_bound c a scr hs]
    cases hb : a.m_inBatch <;> simp [SessionInv, hs, hb]
  | beginBatch => simp [AgentOp.run, SCH_AGENT.BeginBatch, SessionInv, hs]
  | endBatch m =>
    cases hb : a.m_inBatch
    · simp [AgentOp.run, SCH_AGENT.EndBatch, SessionInv, hs, hb, hc hb]
    · simp [AgentOp.run, SCH_AGENT.EndBatch, SessionInv, hs, hb]

/-- Every state reached from a newly constructed bound session satisfies the invariant. -/
theorem SessionInv_runOps (scr : SCH_SCREEN) (ops : List AgentOp) (a : SCH_AGENT)
    (h : SessionInv scr a) : SessionInv scr (runOps ops a) := by
  induction ops generalizing a with
  | nil => exact h
  | cons op ops ih => exact ih _ (SessionInv_step scr op a h)

/-- Outside a batch, with an empty pending transaction, a sequence of `AddX` calls pushes one
singleton transaction per call and leaves the session as it was otherwise. -/
theorem runCalls_autocommit (cs : List AgentCall) (a : SCH_AGENT) (scr : SCH_SCREEN)
    (h : a.m_screen = some scr) (hb : a.m_inBatch = false)
    (hc : a.m_commit = SCH_COMMIT.fresh) :
    runCalls cs a =
      { a with
        m_frame :=
          { a.m_frame with
            undoList := a.m_frame.undoList ++
              cs.map (fun c => ⟨c.description, [(c.item, scr)]⟩) } } := by
  induction cs generalizing a with
  | nil => simp [runCalls_nil]
  | cons c cs ih =>
    rw [runCalls_cons, AgentCall.run_bound c a scr h]
    simp only [hb, Bool.false_eq_true, if_false]
    rw [ih]
    · simp [hc, SCH_COMMIT.fresh]
    · exact h
    · rfl
    · rfl

/-- C1 (batch atomicity). On a session with a bound document surface, for every sequence of
`AddX` calls, `BeginBatch(); the calls; EndBatch(msg)` leaves the undo history untouched after
every initial part of the calls, and `EndBatch` then pushes exactly one transaction, described
by `msg`, holding exactly the primitives of the calls in call order (none when there is no
call). -/
theorem C1_batch_atomicity (a : SCH_AGENT) (scr : SCH_SCREEN) (h : a.m_screen = some scr)
    (cs : List AgentCall) (msg : String) :
    (∀ k : Nat,
      (runCalls (cs.take k) a.BeginBatch).m_frame.undoList = a.m_frame.undoList) ∧
    ((runCalls cs a.BeginBatch).EndBatch msg).m_frame.undoList =
      a.m_frame.undoList ++ [⟨msg, cs.map (fun c => (c.item, scr))⟩] := by
  have hs : a.BeginBatch.m_screen = some scr := by simp [SCH_AGENT.BeginBatch, h]
  have hb : a.BeginBatch.m_inBatch = true := by simp [SCH_AGENT.BeginBatch]
  constructor
  · intro k
    rw [runCalls_inBatch _ _ scr hs hb]
    simp [SCH_AGENT.BeginBatch]
  · rw [runCalls_inBatch _ _ scr hs hb]
    simp [SCH_AGENT.BeginBatch, SCH_AGENT.EndBatch, SCH_COMMIT.Push, SCH_COMMIT.fresh]

/-- C1 at a concrete batch of three calls on a new session. -/
theorem C1_batch_atomicity_witness :
    (SCH_AGENT.new sampleFrame).m_screen = some 7 ∧
    ((∀ k : Nat,
      (runCalls
        ([AgentCall.AddJunction ⟨1, 2⟩, AgentCall.AddWire ⟨0, 0⟩ ⟨5, 5⟩,
          AgentCall.AddLabel ⟨3, 4⟩ ['A']].take k)
        (SCH_AGENT.new sampleFrame).BeginBatch).m_frame.undoList =
        (SCH_AGENT.new sampleFrame).m_frame.undoList) ∧
    ((runCalls
        [AgentCall.AddJunction ⟨1, 2⟩, AgentCall.AddWire ⟨0, 0⟩ ⟨5, 5⟩,
          AgentCall.AddLabel ⟨3, 4⟩ ['A']]
        (SCH_AGENT.new sampleFrame).BeginBatch).EndBatch "msg").m_frame.undoList =
      (SCH_AGENT.new sampleFrame).m_frame.undoList ++
        [⟨"msg",
          [AgentCall.AddJunction ⟨1, 2⟩, AgentCall.AddWire ⟨0, 0⟩ ⟨5, 5⟩,
            AgentCall.AddLabel ⟨3, 4⟩ ['A']].map (fun c => (c.item, 7))⟩]) :=
  ⟨rfl, C1_batch_atomicity (SCH_AGENT.new sampleFrame) 7 rfl _ "msg"⟩

/-- C2 (autocommit isolation). In every state reached from a newly constructed session with
a bound surface by `AddX`, `BeginBatch` and `EndBatch` calls in which the session is not in
batch mode, an `AddX` call returns `true`, pushes exactly one transaction, holding exactly the
primitive just built under the fixed description of its kind, and leaves an empty pending
transaction and autocommit mode; and `k` such calls in a row push `k` separate singleton
transactions, in call order. -/
theorem C2_autocommit_isolation (f : SCH_EDIT_FRAME) (scr : SCH_SCREEN)
    (hf : f.screen = some scr) (ops : List AgentOp)
    (hidle : (runOps ops (SCH_AGENT.new f)).m_inBatch = false) :
    (∀ c : AgentCall,
      (c.run (runOps ops (SCH_AGENT.new f))).1 = true ∧
      (c.run (runOps ops (SCH_AGENT.new f))).2.m_frame.undoList =
        (runOps ops (SCH_AGENT.new f)).m_frame.undoList ++
          [⟨c.description, [(c.item, scr)]⟩] ∧
      (c.run (runOps ops (SCH_AGENT.new f))).2.m_commit = SCH_COMMIT.fresh ∧
      (c.run (runOps ops (SCH_AGENT.new f))).2.m_inBatch = false) ∧
    (∀ cs : List AgentCall,
      (runCalls cs (runOps ops (SCH_AGENT.new f))).m_frame.undoList =
        (runOps ops (SCH_AGENT.new f)).m_frame.undoList ++
          cs.map (fun c => ⟨c.description, [(c.item, scr)]⟩)) := by
  obtain ⟨hs, hc⟩ := SessionInv_runOps scr ops _ (SessionInv_new f scr hf)
  have hc := hc hidle
  constructor
  · intro c
    rw [AgentCall.run_bound c _ scr hs]
    simp [hidle, hc, SCH_COMMIT.fresh]
  · intro cs
    rw [runCalls_autocommit cs _ scr hs hidle hc]

/-- C2 at a concrete state: after a junction added outside a batch and a finished batch of
one wire. -/
theorem C2_autocommit_isolation_witness :
    sampleFrame.screen = some 7 ∧
    (runOps [AgentOp.add (AgentCall.AddJunction ⟨1, 2⟩), AgentOp.beginBatch,
      AgentOp.add (AgentCall.AddWire ⟨0, 0⟩ ⟨5, 5⟩), AgentOp.endBatch "b"]
      (SCH_AGENT.new sampleFrame)).m_inBatch = false ∧
    (AgentCall.run (AgentCall.AddText ⟨3, 4⟩ ['t'])
      (runOps [AgentOp.add (AgentCall.AddJunction ⟨1, 2⟩), AgentOp.beginBatch,
        AgentOp.add (AgentCall.AddWire ⟨0, 0⟩ ⟨5, 5⟩), AgentOp.endBatch "b"]
        (SCH_AGENT.new sampleFrame))).2.m_frame.undoList =
      (runOps [AgentOp.add (AgentCall.AddJunction ⟨1, 2⟩), AgentOp.beginBatch,
        AgentOp.add (AgentCall.AddWire ⟨0, 0⟩ ⟨5, 5⟩), AgentOp.endBatch "b"]
        (SCH_AGENT.new sampleFrame)).m_frame.undoList ++
        [⟨"Added text", [(SCH_ITEM.SCH_TEXT ⟨3, 4⟩ ['t'], 7)]⟩] :=
  ⟨rfl, rfl,
    ((C2_autocommit_isolation sampleFrame 7 rfl
      [AgentOp.add (AgentCall.AddJunction ⟨1, 2⟩), AgentOp.beginBatch,
        AgentOp.add (AgentCall.AddWire ⟨0, 0⟩ ⟨5, 5⟩), AgentOp.endBatch "b"] rfl).1
      (AgentCall.AddText ⟨3, 4⟩ ['t'])).2.1⟩

/-- C3 (unbound-surface precondition). Each `AddX` call returns `false` if and only if the
session has no bound document surface, and when it returns `false` the session (pending
transaction, batch flag, undo history) is unchanged, whatever the batch flag. -/
theorem C3_unbound_surface (c : AgentCall) (a : SCH_AGENT) :
    ((c.run a).1 = false ↔ a.m_screen = none) ∧
    ((c.run a).1 = false → (c.run a).2 = a) := by
  cases hs : a.m_screen with
  | none => rw [AgentCall.run_unbound c a hs]; simp
  | some scr => rw [AgentCall.run_bound c a scr hs]; simp

/-- C3 at a concrete unbound session in batch mode with a pending primitive. -/
theorem C3_unbound_surface_witness :
    (AgentCall.run (AgentCall.AddWire ⟨0, 0⟩ ⟨5, 5⟩)
      ⟨unboundFrame, none, ⟨[(SCH_ITEM.SCH_JUNCTION ⟨1, 2⟩, 7)]⟩, true⟩).1 = false ∧
    (AgentCall.run (AgentCall.AddWire ⟨0, 0⟩ ⟨5, 5⟩)
      ⟨unboundFrame, none, ⟨[(SCH_ITEM.SCH_JUNCTION ⟨1, 2⟩, 7)]⟩, true⟩).2 =
      ⟨unboundFrame, none, ⟨[(SCH_ITEM.SCH_JUNCTION ⟨1, 2⟩, 7)]⟩, true⟩ :=
  ⟨rfl,
    (C3_unbound_surface (AgentCall.AddWire ⟨0, 0⟩ ⟨5, 5⟩)
      ⟨unboundFrame, none, ⟨[(SCH_ITEM.SCH_JUNCTION ⟨1, 2⟩, 7)]⟩, true⟩).2 rfl⟩

/-! ## The interpreter loop -/

/-- The loop body makes the call `lineCall` names and sets `success`, or does nothing. -/
theorem loopBody_eq (mmToIU : ScannedDouble → Int) (st : Bool × SCH_AGENT)
    (token : wxString) :
    loopBody mmToIU st token =
      match lineCall mmToIU token with
      | some c => (true, (c.run st.2).2)
      | none => st := by
  unfold loopBody lineCall parseLine
  simp only []
  split
  · rfl
  · split
    · split <;> simp [AgentCall.run]
    · split
      · split <;> simp [AgentCall.run]
      · split
        · split
          · split <;> simp [AgentCall.run]
          · simp
        · split
          · split
            · split <;> simp [AgentCall.run]
            · simp
          · rfl

/-- The loop over a list of tokens makes the calls of the tokens in order, and `success` ends
`true` when it was `true` or a call was made. -/
theorem foldl_loopBody (mmToIU : ScannedDouble → Int) (ts : List wxString) (b : Bool)
    (a : SCH_AGENT) :
    ts.foldl (loopBody mmToIU) (b, a) =
      (b || !(ts.filterMap (lineCall mmToIU)).isEmpty,
        runCalls (ts.filterMap (lineCall mmToIU)) a) := by
  induction ts generalizing b a with
  | nil => simp [runCalls_nil]
  | cons t ts ih =>
    rw [List.foldl_cons, loopBody_eq]
    cases h : lineCall mmToIU t with
    | none => simp [ih, h]
    | some c => simp [ih, h, runCalls_cons]

/-- `ParseAndExecute` opens a batch, makes the emitted calls in order, closes the batch, and
returns whether a call was emitted. -/
theorem ParseAndExecute_eq (mmToIU : ScannedDouble → Int) (a : SCH_AGENT) (s : wxString) :
    ParseAndExecute mmToIU a s =
      (!(emitted mmToIU s).isEmpty,
        (runCalls (emitted mmToIU s) a.BeginBatch).EndBatch "Ollama agent operation") := by
  simp [ParseAndExecute, foldl_loopBody, emitted]

theorem splitLines_ne_nil (s : List Char) : splitLines s ≠ [] := by
  cases s with
  | nil => simp [splitLines]
  | cons c cs =>
    unfold splitLines
    split
    · simp
    · split <;> simp

/-- Cutting into lines distributes over a line feed. -/
theorem splitLines_append (a b : List Char) :
    splitLines (a ++ '\n' :: b) = splitLines a ++ splitLines b := by
  induction a with
  | nil => simp [splitLines]
  | cons c cs ih =>
    by_cases hc : c = '\n'
    · simp [splitLines, hc, ih]
    · simp only [List.cons_append, splitLines, hc, if_false]
      rw [show cs.append ('\n' :: b) = cs ++ '\n' :: b from rfl, ih]
      cases h : splitLines cs with
      | nil => exact absurd h (splitLines_ne_nil cs)
      | cons l ls => simp

theorem tokens_append (a b : List Char) :
    tokens (a ++ '\n' :: b) = tokens a ++ tokens b := by
  simp [tokens, splitLines_append]

theorem emitted_append (mmToIU : ScannedDouble → Int) (a b : List Char) :
    emitted mmToIU (a ++ '\n' :: b) = emitted mmToIU a ++ emitted mmToIU b := by
  simp [emitted, tokens_append]

/-- A text without a line feed is a single line. -/
theorem splitLines_single (l : List Char) (h : '\n' ∉ l) : splitLines l = [l] := by
  induction l with
  | nil => rfl
  | cons c cs ih =>
    have hc : c ≠ '\n' := fun e => h (by simp [e])
    have hcs : '\n' ∉ cs := fun e => h (by simp [e])
    simp [splitLines, hc, ih hcs]

theorem lineCall_nil (mmToIU : ScannedDouble → Int) : lineCall mmToIU [] = none := by
  simp [lineCall, Trim]

/-- The commands emitted for a text without a line feed are the command of that one line. -/
theorem emitted_single (mmToIU : ScannedDouble → Int) (l : List Char) (h : '\n' ∉ l) :
    emitted mmToIU l = (lineCall mmToIU l).toList := by
  cases l with
  | nil => simp [emitted, tokens, splitLines, lineCall_nil]
  | cons c cs =>
    simp only [emitted, tokens, splitLines_single _ h]
    cases hl : lineCall mmToIU (c :: cs) <;> simp [hl]

/-- The emitted commands are those of the lines, empty lines included, in order. -/
theorem emitted_eq_lines (mmToIU : ScannedDouble → Int) (s : List Char) :
    emitted mmToIU s = (splitLines s).filterMap (lineCall mmToIU) := by
  unfold emitted tokens
  induction splitLines s with
  | nil => rfl
  | cons l ls ih =>
    cases l with
    | nil => simpa [List.filter_cons, lineCall_nil] using ih
    | cons c cs =>
      simp only [List.filter_cons, List.isEmpty_cons, Bool.not_false, if_true]
      cases hl : lineCall mmToIU (c :: cs) <;> simp [List.filterMap_cons, hl, ih]

/-! ## Lines that emit nothing -/

theorem Trim_isPrefix (l : wxString) : Trim l <+: l :=
  List.rdropWhile_prefix isspace l

/-- A token made of white space only is trimmed to the empty line. -/
theorem Trim_of_all_isspace (l : wxString) (h : l.all isspace = true) : Trim l = [] := by
  unfold Trim
  rw [List.reverse_eq_nil_iff, List.dropWhile_eq_nil_iff]
  intro c hc
  exact List.all_eq_true.mp h c (List.mem_reverse.mp hc)

/-- A line whose first character is not `J`, `W`, `L` or `T` after conversion to upper case
enters no branch of the loop body. -/
theorem parseLine_none_of_head (mmToIU : ScannedDouble → Int) (c : Char) (t : List Char)
    (hJ : c.toUpper ≠ 'J') (hW : c.toUpper ≠ 'W') (hL : c.toUpper ≠ 'L')
    (hT : c.toUpper ≠ 'T') : parseLine mmToIU (c :: t) = none := by
  simp [parseLine, StartsWith, Upper, String.toList, Ne.symm hJ, Ne.symm hW, Ne.symm hL,
    Ne.symm hT]

/-- A token that begins with `#` or with a white-space character emits nothing. -/
theorem lineCall_none_of_head (mmToIU : ScannedDouble → Int) (c : Char) (t : List Char)
    (h : c = '#' ∨ isspace c = true) : lineCall mmToIU (c :: t) = none := by
  unfold lineCall
  cases hT : Trim (c :: t) with
  | nil => simp
  | cons d u =>
    have hp := Trim_isPrefix (c :: t)
    rw [hT] at hp
    have hd : d = c := by
      obtain ⟨r, hr⟩ := hp
      simp at hr
      exact hr.1
    subst hd
    rcases h with h | h
    · subst h
      simp [StartsWith, String.toList]
    · have hu : parseLine mmToIU (d :: u) = none := by
        simp only [isspace, Bool.or_eq_true, decide_eq_true_eq] at h
        apply parseLine_none_of_head <;>
          rcases h with ((((h | h) | h) | h) | h) | h <;> subst h <;> decide
      simp [hu]

/-- A blank line and a comment line emit nothing. -/
theorem lineCall_none_of_blank_or_comment (mmToIU : ScannedDouble → Int) (l : List Char)
    (h : isBlank l = true ∨ isComment l = true) : lineCall mmToIU l = none := by
  rcases h with h | h
  · simp [lineCall, Trim_of_all_isspace l h]
  · cases l with
    | nil => exact lineCall_nil mmToIU
    | cons c t =>
      apply lineCall_none_of_head
      by_cases hc : isspace c = true
      · exact Or.inr hc
      · left
        simpa [isComment, List.dropWhile_cons, hc] using h

/-- C8 (comment/blank skip). For every input in which every line is blank or has `#` as its
first character (directly, or after leading white space), `ParseAndExecute` makes no `AddX`
call, returns `false`, and pushes one transaction that holds no primitive. -/
theorem C8_comment_blank_skip (mmToIU : ScannedDouble → Int) (a : SCH_AGENT) (s : wxString)
    (h : ∀ l ∈ splitLines s, isBlank l = true ∨ isComment l = true) :
    emitted mmToIU s = [] ∧
    (ParseAndExecute mmToIU a s).1 = false ∧
    (ParseAndExecute mmToIU a s).2.m_frame.undoList =
      a.m_frame.undoList ++ [⟨"Ollama agent operation", []⟩] := by
  have he : emitted mmToIU s = [] := by
    rw [emitted_eq_lines, List.filterMap_eq_nil_iff]
    intro l hl
    exact lineCall_none_of_blank_or_comment mmToIU l (h l hl)
  refine ⟨he, ?_, ?_⟩
  · simp [ParseAndExecute_eq, he]
  · simp [ParseAndExecute_eq, he, runCalls_nil, SCH_AGENT.BeginBatch, SCH_AGENT.EndBatch,
      SCH_COMMIT.Push, SCH_COMMIT.fresh]

/-- C8 at a concrete input with comments, an indented comment and blank lines. -/
theorem C8_comment_blank_skip_witness :
    (∀ l ∈ splitLines "# a\n\n  \n  # JUNCTION 1 2\n#WIRE 1 1 2 2".toList,
      isBlank l = true ∨ isComment l = true) ∧
    emitted sampleMmToIU "# a\n\n  \n  # JUNCTION 1 2\n#WIRE 1 1 2 2".toList = [] ∧
    (ParseAndExecute sampleMmToIU (SCH_AGENT.new sampleFrame)
      "# a\n\n  \n  # JUNCTION 1 2\n#WIRE 1 1 2 2".toList).1 = false ∧
    (ParseAndExecute sampleMmToIU (SCH_AGENT.new sampleFrame)
      "# a\n\n  \n  # JUNCTION 1 2\n#WIRE 1 1 2 2".toList).2.m_frame.undoList =
      (SCH_AGENT.new sampleFrame).m_frame.undoList ++ [⟨"Ollama agent operation", []⟩] :=
  ⟨by decide,
    C8_comment_blank_skip sampleMmToIU (SCH_AGENT.new sampleFrame)
      "# a\n\n  \n  # JUNCTION 1 2\n#WIRE 1 1 2 2".toList (by decide)⟩

/-- C9 (overall result). `ParseAndExecute` returns `true` if and only if some line of the
input made the loop body emit a command; and once a text produces a command, lines added
after it or before it leave the result `true`. -/
theorem C9_overall_result (mmToIU : ScannedDouble → Int) (a : SCH_AGENT) (s : wxString) :
    ((ParseAndExecute mmToIU a s).1 = true ↔
      ∃ l ∈ splitLines s, ∃ c, lineCall mmToIU l = some c) ∧
    (∀ t : wxString, (ParseAndExecute mmToIU a s).1 = true →
      (ParseAndExecute mmToIU a (s ++ '\n' :: t)).1 = true ∧
      (ParseAndExecute mmToIU a (t ++ '\n' :: s)).1 = true) := by
  constructor
  · rw [ParseAndExecute_eq, emitted_eq_lines]
    simp only [Bool.not_eq_true', List.isEmpty_eq_false]
    constructor
    · intro hne
      obtain ⟨c, hc⟩ := List.exists_mem_of_ne_nil _ hne
      obtain ⟨l, hl, hlc⟩ := List.mem_filterMap.mp hc
      exact ⟨l, hl, c, hlc⟩
    · rintro ⟨l, hl, c, hlc⟩
      exact List.ne_nil_of_mem (List.mem_filterMap.mpr ⟨l, hl, hlc⟩)
  · intro t
    simp only [ParseAndExecute_eq, emitted_append, Bool.not_eq_true', List.isEmpty_eq_false]
    intro hne
    exact ⟨by simp [hne], by simp [hne]⟩

/-- C9 at a concrete text whose first line is malformed and whose second is a wire. -/
theorem C9_overall_result_witness :
    (ParseAndExecute sampleMmToIU (SCH_AGENT.new sampleFrame)
      "JUNCTION abc 50\nWIRE 1 1 2 2".toList).1 = true ∧
    (ParseAndExecute sampleMmToIU (SCH_AGENT.new sampleFrame)
      ("JUNCTION abc 50\nWIRE 1 1 2 2".toList ++ '\n' :: "LABEL x".toList)).1 = true ∧
    (ParseAndExecute sampleMmToIU (SCH_AGENT.new sampleFrame)
      ("LABEL x".toList ++ '\n' :: "JUNCTION abc 50\nWIRE 1 1 2 2".toList)).1 = true :=
  ⟨by decide,
    (C9_overall_result sampleMmToIU (SCH_AGENT.new sampleFrame)
      "JUNCTION abc 50\nWIRE 1 1 2 2".toList).2 "LABEL x".toList (by decide)⟩

/-- C10 (line order, independent lines). For all texts `a` and `b`, the calls emitted for
`a`, a line feed, `b` are those emitted for `a` followed by those emitted for `b`; the result
is the disjunction of the two results; the agent ends as after one batch of those calls in
that order; and a first line that emits nothing leaves the calls of the following text as
they are. -/
theorem C10_line_order (mmToIU : ScannedDouble → Int) (ag : SCH_AGENT) (a b : wxString) :
    emitted mmToIU (a ++ '\n' :: b) = emitted mmToIU a ++ emitted mmToIU b ∧
    (ParseAndExecute mmToIU ag (a ++ '\n' :: b)).1 =
      ((ParseAndExecute mmToIU ag a).1 || (ParseAndExecute mmToIU ag b).1) ∧
    (ParseAndExecute mmToIU ag (a ++ '\n' :: b)).2 =
      (runCalls (emitted mmToIU a ++ emitted mmToIU b) ag.BeginBatch).EndBatch
        "Ollama agent operation" ∧
    ('\n' ∉ a → lineCall mmToIU a = none →
      emitted mmToIU (a ++ '\n' :: b) = emitted mmToIU b) := by
  refine ⟨emitted_append mmToIU a b, ?_, ?_, ?_⟩
  · simp only [ParseAndExecute_eq, emitted_append]
    cases emitted mmToIU a <;> simp
  · simp only [ParseAndExecute_eq, emitted_append]
  · intro ha hn
    rw [emitted_append, emitted_single mmToIU a ha, hn]
    rfl

/-- C10 at a concrete text: an unrecognized line followed by a junction and a label. -/
theorem C10_line_order_witness :
    '\n' ∉ "Sure, here it is:".toList ∧
    lineCall sampleMmToIU "Sure, here it is:".toList = none ∧
    emitted sampleMmToIU
      ("Sure, here it is:".toList ++ '\n' :: "JUNCTION 1 2\nLABEL 5 5 \"VCC\"".toList) =
      emitted sampleMmToIU "JUNCTION 1 2\nLABEL 5 5 \"VCC\"".toList ∧
    emitted sampleMmToIU "JUNCTION 1 2\nLABEL 5 5 \"VCC\"".toList =
      [AgentCall.AddJunction ⟨10000, 20000⟩,
        AgentCall.AddLabel ⟨50000, 50000⟩ ['V', 'C', 'C']] :=
  ⟨by decide, by decide,
    (C10_line_order sampleMmToIU (SCH_AGENT.new sampleFrame) "Sure, here it is:".toList
      "JUNCTION 1 2\nLABEL 5 5 \"VCC\"".toList).2.2.2 (by decide) (by decide),
    by decide⟩

/-! ## Reading numbers: white space after the input -/

theorem takeWhile_append_stop (p : Char → Bool) (a : List Char) (c : Char) (r : List Char)
    (hc : p c = false) : (a ++ c :: r).takeWhile p = a.takeWhile p := by
  induction a with
  | nil => simp [List.takeWhile_cons, hc]
  | cons d a ih => by_cases hd : p d = true <;> simp [List.takeWhile_cons, hd, ih]

theorem dropWhile_append_stop (p : Char → Bool) (a : List Char) (c : Char) (r : List Char)
    (hc : p c = false) : (a ++ c :: r).dropWhile p = a.dropWhile p ++ c :: r := by
  induction a with
  | nil => simp [List.dropWhile_cons, hc]
  | cons d a ih => by_cases hd : p d = true <;> simp [List.dropWhile_cons, hd, ih]

/-- The six white-space characters. -/
theorem isspace_cases (c : Char) (h : isspace c = true) :
    c = ' ' ∨ c = '\t' ∨ c = '\n' ∨ c = '\x0b' ∨ c = '\x0c' ∨ c = '\r' := by
  simp only [isspace, Bool.or_eq_true, decide_eq_true_eq] at h
  tauto

theorem scanSign_append (s : List Char) (c : Char) (r : List Char) (h : isspace c = true) :
    scanSign (s ++ c :: r) = ((scanSign s).1, (scanSign s).2 ++ c :: r) := by
  have h1 : c ≠ '+' := by rcases isspace_cases c h with e | e | e | e | e | e <;> subst e <;> decide
  have h2 : c ≠ '-' := by rcases isspace_cases c h with e | e | e | e | e | e <;> subst e <;> decide
  cases s with
  | nil => simp [scanSign, h1, h2]
  | cons d s => by_cases hd : d = '+' ∨ d = '-' <;> simp [scanSign, hd]

theorem scanNumberChars_append (hexa gotDigit gotDot gotE afterExp : Bool) (s : List Char)
    (c : Char) (r : List Char) (h : isspace c = true) :
    scanNumberChars hexa gotDigit gotDot gotE afterExp (s ++ c :: r) =
      ((scanNumberChars hexa gotDigit gotDot gotE afterExp s).1,
        (scanNumberChars hexa gotDigit gotDot gotE afterExp s).2 ++ c :: r) := by
  have hD : Char.isDigit c = false := by
    rcases isspace_cases c h with e | e | e | e | e | e <;> subst e <;> decide
  have hH : isHexDigit c = false := by
    rcases isspace_cases c h with e | e | e | e | e | e <;> subst e <;> decide
  have hm : c ≠ '-' := by
    rcases isspace_cases c h with e | e | e | e | e | e <;> subst e <;> decide
  have hp : c ≠ '+' := by
    rcases isspace_cases c h with e | e | e | e | e | e <;> subst e <;> decide
  have he : c.toLower ≠ 'e' := by
    rcases isspace_cases c h with e | e | e | e | e | e <;> subst e <;> decide
  have hpp : c.toLower ≠ 'p' := by
    rcases isspace_cases c h with e | e | e | e | e | e <;> subst e <;> decide
  have hdot : c ≠ '.' := by
    rcases isspace_cases c h with e | e | e | e | e | e <;> subst e <;> decide
  induction s generalizing gotDigit gotDot gotE afterExp with
  | nil =>
    cases hexa <;> simp [scanNumberChars, hD, hH, hm, hp, he, hpp, hdot]
  | cons d t ih =>
    simp only [List.cons_append, scanNumberChars]
    split_ifs <;> simp [ih]

theorem scanWord_append (w : List Char) (s : List Char) (c : Char) (r : List Char)
    (hw : ∀ k ∈ w, c.toLower ≠ k) :
    scanWord w (s ++ c :: r) = extend (c :: r) (scanWord w s) := by
  induction w generalizing s with
  | nil => simp [scanWord, extend]
  | cons k w ih =>
    have hk : c.toLower ≠ k := hw k (by simp)
    have hw1 : ∀ k ∈ w, c.toLower ≠ k := fun k hk => hw k (by simp [hk])
    cases s with
    | nil => simp [scanWord, extend, hk]
    | cons d t =>
      simp only [List.cons_append, scanWord, List.append_eq]
      by_cases hd : d.toLower = k
      · simp only [hd, if_true]
        rw [ih t hw1]
        cases hx : scanWord w t <;> simp [extend]
      · simp [extend, hd]

theorem scanNumberChars_space (hexa gotDigit gotDot gotE afterExp : Bool) (c : Char)
    (r : List Char) (h : isspace c = true) :
    scanNumberChars hexa gotDigit gotDot gotE afterExp (c :: r) = ([], c :: r) :=
  scanNumberChars_append hexa gotDigit gotDot gotE afterExp [] c r h

theorem scanUnsigned_append (s : List Char) (c : Char) (r : List Char)
    (h : isspace c = true) :
    scanUnsigned (s ++ c :: r) = extend (c :: r) (scanUnsigned s) := by
  have hi : c.toLower ≠ 'i' := by
    rcases isspace_cases c h with e | e | e | e | e | e <;> subst e <;> decide
  have hn : c.toLower ≠ 'n' := by
    rcases isspace_cases c h with e | e | e | e | e | e <;> subst e <;> decide
  have hx : c.toLower ≠ 'x' := by
    rcases isspace_cases c h with e | e | e | e | e | e <;> subst e <;> decide
  have h0 : c ≠ '0' := by
    rcases isspace_cases c h with e | e | e | e | e | e <;> subst e <;> decide
  have hinf : ∀ k ∈ ['i', 'n', 'f'], c.toLower ≠ k := by
    rcases isspace_cases c h with e | e | e | e | e | e <;> subst e <;> decide
  have hinity : ∀ k ∈ ['i', 'n', 'i', 't', 'y'], c.toLower ≠ k := by
    rcases isspace_cases c h with e | e | e | e | e | e <;> subst e <;> decide
  have hnan : ∀ k ∈ ['n', 'a', 'n'], c.toLower ≠ k := by
    rcases isspace_cases c h with e | e | e | e | e | e <;> subst e <;> decide
  cases s with
  | nil =>
    have hloop := scanNumberChars_space false false false false false c r h
    simp [scanUnsigned, extend, hi, hn, h0, hloop]
  | cons c0 t =>
    simp only [List.cons_append, scanUnsigned, List.append_eq]
    by_cases h2 : c0.toLower = 'n'
    · simp only [h2, if_true]
      have hw := scanWord_append ['n', 'a', 'n'] (c0 :: t) c r hnan
      rw [List.cons_append] at hw
      exact hw
    · simp only [h2, if_false]
      by_cases h1 : c0.toLower = 'i'
      · simp only [h1, if_true]
        have hw := scanWord_append ['i', 'n', 'f'] (c0 :: t) c r hinf
        rw [List.cons_append] at hw
        rw [hw]
        cases hs : scanWord ['i', 'n', 'f'] (c0 :: t) with
        | none => simp [extend]
        | some mr =>
          obtain ⟨m, r1⟩ := mr
          simp only [extend, Option.map_some']
          cases r1 with
          | nil => simp [hi]
          | cons d r2 =>
            simp only [List.cons_append]
            by_cases hd : d.toLower = 'i'
            · simp only [hd, if_true]
              have hw2 := scanWord_append ['i', 'n', 'i', 't', 'y'] (d :: r2) c r hinity
              rw [List.cons_append] at hw2
              rw [hw2]
              cases hs2 : scanWord ['i', 'n', 'i', 't', 'y'] (d :: r2) <;> simp [extend]
            · simp [hd]
      · simp only [h1, if_false]
        by_cases hz : c0 = '0'
        · simp only [hz, if_true]
          cases t with
          | nil =>
            have hloop := scanNumberChars_space false true false false false c r h
            simp [extend, hx, hloop]
          | cons x t1 =>
            simp only [List.cons_append]
            by_cases hhex : x.toLower = 'x'
            · simp only [hhex, if_true]
              rw [scanNumberChars_append true false false false false t1 c r h]
              by_cases hem : (scanNumberChars true false false false false t1).1.isEmpty = true
              · simp [extend, hem]
              · simp [extend, hem]
            · simp only [hhex, if_false]
              have hloop := scanNumberChars_append false true false false false (x :: t1) c r h
              rw [List.cons_append] at hloop
              rw [hloop]
              simp [extend]
        · simp only [hz, if_false]
          have hloop := scanNumberChars_append false false false false false (c0 :: t) c r h
          rw [List.cons_append] at hloop
          rw [hloop]
          by_cases hany :
              (scanNumberChars false false false false false (c0 :: t)).1.any Char.isDigit = true
          · simp [extend, hany]
          · simp [extend, hany]

/-- Reading a number from an input that is not all white space is not affected by what
follows a white-space character placed after the input. -/
theorem scanDouble_append (s : List Char) (c : Char) (r : List Char) (h : isspace c = true)
    (hs : s.dropWhile isspace ≠ []) :
    scanDouble (s ++ c :: r) = extend (c :: r) (scanDouble s) := by
  unfold scanDouble
  have hdw : (s ++ c :: r).dropWhile isspace = s.dropWhile isspace ++ c :: r := by
    induction s with
    | nil => exact absurd rfl hs
    | cons d t ih =>
      by_cases hd : isspace d = true
      · simp only [List.cons_append, List.dropWhile_cons, hd, if_true] at hs ⊢
        exact ih hs
      · simp [List.dropWhile_cons, hd]
  simp only []
  rw [hdw, scanSign_append _ c r h]
  simp only []
  rw [scanUnsigned_append _ c r h]
  cases hu : scanUnsigned (scanSign (s.dropWhile isspace)).2 <;> simp [extend]

/-- What the embedding of `wxSscanf` gives where the C library departs from the grammar of
floating-point literals: an exponent letter without digits is consumed and the number before
it is read; after `nan` a bracket is left in the input, so that the next conversion fails. -/
theorem wxSscanf_library_cases :
    wxSscanf "JUNCTION 1e 5".toList "JUNCTION" 2 = ["1e".toList, "5".toList] ∧
    wxSscanf "WIRE 1 1 2 2e".toList "WIRE" 4 =
      ["1".toList, "1".toList, "2".toList, "2e".toList] ∧
    wxSscanf "WIRE1e 2 3 4".toList "WIRE" 4 =
      ["1e".toList, "2".toList, "3".toList, "4".toList] ∧
    wxSscanf "JUNCTION nan(abc) 5".toList "JUNCTION" 2 = ["nan".toList] ∧
    wxSscanf "WIRE nan(1) 1 2 3".toList "WIRE" 4 = ["nan".toList] ∧
    wxSscanf "LABEL nan(abc) 5 \"x\"".toList "LABEL" 2 = ["nan".toList] := by
  decide

/-- Inputs on which `%lf` consumes more than the number it reads, or stops inside what looks
like a literal: `1e+` and `0x1p` are consumed whole, `0x.` is read as 0, the second exponent
letter and the sign after a hexadecimal digit `e` are left. -/
theorem scanDouble_library_cases :
    scanDouble "1e+".toList = some ("1e+".toList, []) ∧
    scanDouble "1e.5".toList = some ("1e".toList, ".5".toList) ∧
    scanDouble "0x1p".toList = some ("0x1p".toList, []) ∧
    scanDouble "0x1e+5".toList = some ("0x1e".toList, "+5".toList) ∧
    scanDouble "0x.".toList = some ("0x.".toList, []) ∧
    scanDouble "INFINITYx".toList = some ("INFINITY".toList, "x".toList) ∧
    scanDouble "  -12.5e-3abc".toList = some ("-12.5e-3".toList, "abc".toList) := by
  decide

/-- Inputs that `%lf` refuses: `0x` without a digit, a point or a sign without a digit, and the
beginning of `infinity` cut short. -/
theorem scanDouble_refused_cases :
    scanDouble "0x".toList = none ∧
    scanDouble ".e5".toList = none ∧
    scanDouble "+.".toList = none ∧
    scanDouble "infi".toList = none ∧
    scanDouble "na".toList = none := by
  decide

/-! ## Trailing white space -/

/-- Trimming stops at a character that is not white space. -/
theorem Trim_append_cons (a : List Char) (c : Char) (b : List Char)
    (hc : isspace c = false) : Trim (a ++ c :: b) = a ++ c :: Trim b := by
  unfold Trim
  have hr : (a ++ c :: b).reverse = b.reverse ++ c :: a.reverse := by simp
  rw [hr, dropWhile_append_stop isspace _ c _ hc]
  simp

/-- A token is its trimmed line followed by white space. -/
theorem Trim_append_spaces (l : List Char) :
    ∃ w : List Char, (∀ c ∈ w, isspace c = true) ∧ l = Trim l ++ w := by
  refine ⟨(l.reverse.takeWhile isspace).reverse, ?_, ?_⟩
  · intro c hc
    exact List.mem_takeWhile_imp (List.mem_reverse.mp hc)
  · have h := List.takeWhile_append_dropWhile isspace l.reverse
    have h2 := congrArg List.reverse h
    simp only [List.reverse_append, List.reverse_reverse] at h2
    exact h2.symm

theorem dropWhile_append_of_ne_nil (p : Char → Bool) (s w : List Char)
    (hs : s.dropWhile p ≠ []) : (s ++ w).dropWhile p = s.dropWhile p ++ w := by
  induction s with
  | nil => exact absurd rfl hs
  | cons d t ih =>
    by_cases hd : p d = true
    · simp only [List.cons_append, List.dropWhile_cons, hd, if_true] at hs ⊢
      exact ih hs
    · simp [List.dropWhile_cons, hd]

theorem dropWhile_dropWhile (p : Char → Bool) (s : List Char) :
    (s.dropWhile p).dropWhile p = s.dropWhile p := by
  induction s with
  | nil => rfl
  | cons d t ih => by_cases hd : p d = true <;> simp [List.dropWhile_cons, hd, ih]

/-- White space after the input does not change the numbers read. -/
theorem scanDoubles_append_spaces (n : Nat) (s w : List Char)
    (hw : ∀ c ∈ w, isspace c = true) : scanDoubles n (s ++ w) = scanDoubles n s := by
  induction n generalizing s with
  | zero => rfl
  | succ n ih =>
    cases w with
    | nil => simp
    | cons c w1 =>
      have hc : isspace c = true := hw c (by simp)
      unfold scanDoubles
      by_cases hs : s.dropWhile isspace = []
      · have hall : (s ++ c :: w1).dropWhile isspace = [] := by
          rw [List.dropWhile_eq_nil_iff] at hs ⊢
          intro x hx
          rcases List.mem_append.mp hx with hx | hx
          · exact hs x hx
          · exact hw x hx
        rw [hall, hs]
      · rw [dropWhile_append_of_ne_nil isspace s (c :: w1) hs,
          scanDouble_append _ c w1 hc (by rw [dropWhile_dropWhile]; exact hs)]
        cases hd : scanDouble (s.dropWhile isspace) with
        | none => simp [extend]
        | some xr =>
          obtain ⟨x, r0⟩ := xr
          simp only [extend, Option.map_some']
          rw [ih r0]

/-- A keyword without white space that begins a token begins its trimmed line. -/
theorem isPrefix_Trim (kw l : List Char) (hk : ∀ c ∈ kw, isspace c = false)
    (h : kw <+: l) : kw <+: Trim l := by
  rcases Nat.le_total kw.length (Trim l).length with hle | hle
  · exact List.prefix_of_prefix_length_le h (Trim_isPrefix l) hle
  · obtain ⟨u, hu⟩ := List.prefix_of_prefix_length_le (Trim_isPrefix l) h hle
    obtain ⟨w, hw, hl⟩ := Trim_append_spaces l
    obtain ⟨v, hv⟩ := h
    cases u with
    | nil => rw [← hu]; simp
    | cons d u1 =>
      exfalso
      have h1 : Trim l ++ (d :: u1 ++ v) = Trim l ++ w := by
        rw [← List.append_assoc, hu, hv]; exact hl
      have h2 := List.append_cancel_left h1
      have hd : d ∈ w := by rw [← h2]; simp
      have hd2 : d ∈ kw := by rw [← hu]; simp
      have hf := hk d hd2
      rw [hw d hd] at hf
      exact absurd hf (by simp)

/-- Reading the trimmed line gives the numbers read from the token. -/
theorem wxSscanf_Trim (l : wxString) (keyword : String) (n : Nat)
    (hk : ∀ c ∈ keyword.toList, isspace c = false) :
    wxSscanf (Trim l) keyword n = wxSscanf l keyword n := by
  unfold wxSscanf
  by_cases h : keyword.toList <+: l
  · have h2 := isPrefix_Trim _ l hk h
    obtain ⟨w, hw, hl⟩ := Trim_append_spaces l
    obtain ⟨v, hv⟩ := h2
    have hlen : keyword.length = keyword.toList.length := rfl
    have e1 : List.drop keyword.length (Trim l) = v := by
      rw [← hv, hlen, List.drop_left]
    have e2 : List.drop keyword.length l = v ++ w := by
      rw [hl, ← hv, hlen, List.append_assoc, List.drop_left]
    simp only [List.isPrefixOf_iff_prefix]
    rw [if_pos ⟨v, hv⟩, if_pos h, e1, e2, scanDoubles_append_spaces n v w hw]
  · have h2 : ¬ keyword.toList <+: Trim l := fun h2 => h (h2.trans (Trim_isPrefix l))
    simp only [List.isPrefixOf_iff_prefix]
    rw [if_neg h2, if_neg h]

/-! ## The branches of the loop body -/

theorem parseLine_JUNCTION (mmToIU : ScannedDouble → Int) (line : wxString)
    (h : "JUNCTION".toList <+: line) :
    parseLine mmToIU line =
      match wxSscanf line "JUNCTION" 2 with
      | [x, y] => some (AgentCall.AddJunction ⟨mmToIU x, mmToIU y⟩)
      | _ => none := by
  obtain ⟨v, rfl⟩ := h
  simp [parseLine, StartsWith, Upper, String.toList]

theorem parseLine_WIRE (mmToIU : ScannedDouble → Int) (line : wxString)
    (h : "WIRE".toList <+: line) :
    parseLine mmToIU line =
      match wxSscanf line "WIRE" 4 with
      | [x1, y1, x2, y2] =>
        some (AgentCall.AddWire ⟨mmToIU x1, mmToIU y1⟩ ⟨mmToIU x2, mmToIU y2⟩)
      | _ => none := by
  obtain ⟨v, rfl⟩ := h
  simp [parseLine, StartsWith, Upper, String.toList]

theorem parseLine_LABEL (mmToIU : ScannedDouble → Int) (line : wxString)
    (h : "LABEL".toList <+: line) :
    parseLine mmToIU line =
      match wxSscanf line "LABEL" 2 with
      | [x, y] =>
        if !(extractText line).isEmpty then
          some (AgentCall.AddLabel ⟨mmToIU x, mmToIU y⟩ (extractText line))
        else none
      | _ => none := by
  obtain ⟨v, rfl⟩ := h
  simp [parseLine, StartsWith, Upper, String.toList]

theorem parseLine_TEXT (mmToIU : ScannedDouble → Int) (line : wxString)
    (h : "TEXT".toList <+: line) :
    parseLine mmToIU line =
      match wxSscanf line "TEXT" 2 with
      | [x, y] =>
        if !(extractText line).isEmpty then
          some (AgentCall.AddText ⟨mmToIU x, mmToIU y⟩ (extractText line))
        else none
      | _ => none := by
  obtain ⟨v, rfl⟩ := h
  simp [parseLine, StartsWith, Upper, String.toList]

/-- `wxSscanf` assigns a value only when the keyword begins the line. -/
theorem isPrefix_of_wxSscanf (line : wxString) (keyword : String) (n : Nat)
    (h : wxSscanf line keyword n ≠ []) : keyword.toList <+: line := by
  by_contra hp
  apply h
  unfold wxSscanf
  rw [if_neg]
  rw [List.isPrefixOf_iff_prefix]
  exact hp

/-- A token whose trimmed line begins with an upper-case letter is handed to the keyword
branches. -/
theorem lineCall_of_Trim_cons (mmToIU : ScannedDouble → Int) (token : wxString) (c : Char)
    (t : List Char) (h : Trim token = c :: t) (hc : c ≠ '#') :
    lineCall mmToIU token = parseLine mmToIU (Trim token) := by
  simp [lineCall, h, StartsWith, String.toList, Ne.symm hc]

/-! ## Text extraction -/

/-- With a pair of double quotes on the line, the text is what stands between the first
two. -/
theorem extractText_quoted (p q r : List Char) (hp : '"' ∉ p) (hq : '"' ∉ q) :
    extractText (p ++ '"' :: (q ++ '"' :: r)) = q := by
  have h1 : (p ++ '"' :: (q ++ '"' :: r)).indexOf '"' = p.length := by
    rw [List.indexOf_append_of_not_mem hp, List.indexOf_cons_self]; rfl
  have h2 : (q ++ '"' :: r).indexOf '"' = q.length := by
    rw [List.indexOf_append_of_not_mem hq, List.indexOf_cons_self]; rfl
  have hm : Mid (p ++ '"' :: (q ++ '"' :: r)) (p.length + 1) = q ++ '"' :: r := by
    simp [Mid, List.drop_append]
  have hf1 : Find (p ++ '"' :: (q ++ '"' :: r)) '"' = some p.length := by
    simp [Find, h1]
  have hf2 : Find (q ++ '"' :: r) '"' = some q.length := by
    simp [Find, h2]
  simp only [extractText, hf1, hm, hf2, SubString]
  have hd : List.drop (p.length + 1) (p ++ '"' :: (q ++ '"' :: r)) = q ++ '"' :: r := hm
  rw [hd]
  have hl : p.length + q.length + 1 - (p.length + 1) = q.length := by omega
  rw [hl, List.take_left]

/-- With a single double quote on the line, no text is extracted. -/
theorem extractText_one_quote (p q : List Char) (hp : '"' ∉ p) (hq : '"' ∉ q) :
    extractText (p ++ '"' :: q) = [] := by
  have h1 : (p ++ '"' :: q).indexOf '"' = p.length := by
    rw [List.indexOf_append_of_not_mem hp, List.indexOf_cons_self]; rfl
  have hm : Mid (p ++ '"' :: q) (p.length + 1) = q := by
    simp [Mid, List.drop_append]
  have hf1 : Find (p ++ '"' :: q) '"' = some p.length := by
    simp [Find, h1]
  have hf2 : Find q '"' = none := by
    have : ¬ q.indexOf '"' < q.length := by
      rw [List.indexOf_lt_length]; exact hq
    simp [Find, this]
  simp only [extractText, hf1, hm, hf2]

/-- Without a double quote on the line, the text is what `AfterFirst( ' ' )` leaves when
applied three times. -/
theorem extractText_unquoted (l : List Char) (h : '"' ∉ l) :
    extractText l = AfterFirst (AfterFirst (AfterFirst l ' ') ' ') ' ' := by
  have hf : Find l '"' = none := by
    have : ¬ l.indexOf '"' < l.length := by
      rw [List.indexOf_lt_length]; exact h
    simp [Find, this]
  simp only [extractText, hf]

theorem spaceTokens_ne_nil (l : List Char) : spaceTokens l ≠ [] := by
  cases l with
  | nil => simp [spaceTokens]
  | cons c cs =>
    unfold spaceTokens
    split
    · simp
    · split <;> simp

theorem joinWithSpaces_cons (t : List Char) (ts : List (List Char)) (h : ts ≠ []) :
    joinWithSpaces (t :: ts) = t ++ ' ' :: joinWithSpaces ts := by
  cases ts with
  | nil => exact absurd rfl h
  | cons u us => rfl

/-- What `AfterFirst( ' ' )` returns, in terms of the space-separated tokens: the tokens
after the first one. -/
theorem spaceTokens_AfterFirst (l : List Char) :
    (' ' ∉ l ∧ spaceTokens l = [l] ∧ AfterFirst l ' ' = []) ∨
    (∃ t, spaceTokens l = t :: spaceTokens (AfterFirst l ' ')) := by
  induction l with
  | nil => left; simp [spaceTokens, AfterFirst]
  | cons c cs ih =>
    by_cases hc : c = ' '
    · right
      exact ⟨[], by simp [spaceTokens, AfterFirst, hc, List.dropWhile_cons]⟩
    · have ha : AfterFirst (c :: cs) ' ' = AfterFirst cs ' ' := by
        simp [AfterFirst, List.dropWhile_cons, hc]
      rcases ih with ⟨h1, h2, h3⟩ | ⟨t, ht⟩
      · left
        refine ⟨by simp [h1, Ne.symm hc], by simp [spaceTokens, hc, h2], by rw [ha, h3]⟩
      · right
        exact ⟨c :: t, by simp [spaceTokens, hc, ht, ha]⟩

/-- Joining the space-separated tokens of a line gives the line back. -/
theorem joinWithSpaces_spaceTokens (l : List Char) : joinWithSpaces (spaceTokens l) = l := by
  induction l with
  | nil => rfl
  | cons c cs ih =>
    by_cases hc : c = ' '
    · simp only [spaceTokens, hc, if_true]
      rw [joinWithSpaces_cons _ _ (spaceTokens_ne_nil cs), ih]
      rfl
    · simp only [spaceTokens, hc, if_false]
      cases hs : spaceTokens cs with
      | nil => exact absurd hs (spaceTokens_ne_nil cs)
      | cons t ts =>
        rw [hs] at ih
        cases ts with
        | nil =>
          simp only [joinWithSpaces] at ih ⊢
          rw [ih]
        | cons u us =>
          simp only [joinWithSpaces] at ih ⊢
          rw [← ih]
          rfl

/-- Applying `AfterFirst( ' ' )` repeatedly drops that many space-separated tokens. -/
theorem iterate_AfterFirst (n : Nat) (l : List Char) :
    (fun s => AfterFirst s ' ')^[n] l = joinWithSpaces ((spaceTokens l).drop n) := by
  induction n generalizing l with
  | zero => simp [joinWithSpaces_spaceTokens]
  | succ n ih =>
    rw [Function.iterate_succ_apply, ih]
    rcases spaceTokens_AfterFirst l with ⟨_, h2, h3⟩ | ⟨t, ht⟩
    · rw [h2, h3]
      cases n <;> simp [spaceTokens, joinWithSpaces]
    · rw [ht]
      rfl

/-- The fallback of the source and the fallback rule of the specification agree. -/
theorem AfterFirst3_eq_remainder (l : List Char) :
    AfterFirst (AfterFirst (AfterFirst l ' ') ' ') ' ' = remainderAfterThirdToken l :=
  iterate_AfterFirst 3 l

/-! ## The command of a line that begins with a keyword -/

/-- A token that begins with a keyword is handed, trimmed, to the keyword branches. -/
theorem lineCall_of_keyword (mmToIU : ScannedDouble → Int) (token : wxString)
    (k : Char) (kw : List Char) (hk : ∀ c ∈ k :: kw, isspace c = false) (hk1 : k ≠ '#')
    (h : k :: kw <+: token) :
    k :: kw <+: Trim token ∧ lineCall mmToIU token = parseLine mmToIU (Trim token) := by
  have hp := isPrefix_Trim (k :: kw) token hk h
  refine ⟨hp, ?_⟩
  obtain ⟨v, hv⟩ := hp
  exact lineCall_of_Trim_cons mmToIU token k (kw ++ v) (by rw [← hv]; rfl) hk1

theorem lineCall_JUNCTION (mmToIU : ScannedDouble → Int) (token : wxString)
    (h : "JUNCTION".toList <+: token) :
    lineCall mmToIU token =
      match wxSscanf token "JUNCTION" 2 with
      | [x, y] => some (AgentCall.AddJunction ⟨mmToIU x, mmToIU y⟩)
      | _ => none := by
  obtain ⟨hp, hl⟩ := lineCall_of_keyword mmToIU token 'J' "UNCTION".toList (by decide)
    (by decide) h
  rw [hl, parseLine_JUNCTION mmToIU _ hp, wxSscanf_Trim token "JUNCTION" 2 (by decide)]

theorem lineCall_WIRE (mmToIU : ScannedDouble → Int) (token : wxString)
    (h : "WIRE".toList <+: token) :
    lineCall mmToIU token =
      match wxSscanf token "WIRE" 4 with
      | [x1, y1, x2, y2] =>
        some (AgentCall.AddWire ⟨mmToIU x1, mmToIU y1⟩ ⟨mmToIU x2, mmToIU y2⟩)
      | _ => none := by
  obtain ⟨hp, hl⟩ := lineCall_of_keyword mmToIU token 'W' "IRE".toList (by decide)
    (by decide) h
  rw [hl, parseLine_WIRE mmToIU _ hp, wxSscanf_Trim token "WIRE" 4 (by decide)]

theorem lineCall_LABEL (mmToIU : ScannedDouble → Int) (token : wxString)
    (x y : ScannedDouble) (h : wxSscanf token "LABEL" 2 = [x, y]) :
    lineCall mmToIU token =
      if extractText (Trim token) = [] then none
      else some (AgentCall.AddLabel ⟨mmToIU x, mmToIU y⟩ (extractText (Trim token))) := by
  have hpre := isPrefix_of_wxSscanf token "LABEL" 2 (by rw [h]; simp)
  obtain ⟨hp, hl⟩ := lineCall_of_keyword mmToIU token 'L' "ABEL".toList (by decide)
    (by decide) hpre
  rw [hl, parseLine_LABEL mmToIU _ hp, wxSscanf_Trim token "LABEL" 2 (by decide), h]
  by_cases he : extractText (Trim token) = [] <;> simp [he]

theorem lineCall_TEXT (mmToIU : ScannedDouble → Int) (token : wxString)
    (x y : ScannedDouble) (h : wxSscanf token "TEXT" 2 = [x, y]) :
    lineCall mmToIU token =
      if extractText (Trim token) = [] then none
      else some (AgentCall.AddText ⟨mmToIU x, mmToIU y⟩ (extractText (Trim token))) := by
  have hpre := isPrefix_of_wxSscanf token "TEXT" 2 (by rw [h]; simp)
  obtain ⟨hp, hl⟩ := lineCall_of_keyword mmToIU token 'T' "EXT".toList (by decide)
    (by decide) hpre
  rw [hl, parseLine_TEXT mmToIU _ hp, wxSscanf_Trim token "TEXT" 2 (by decide), h]
  by_cases he : extractText (Trim token) = [] <;> simp [he]

/-- A token for which a command is emitted begins with one of the four keywords, written in
upper case. -/
theorem isPrefix_of_lineCall (mmToIU : ScannedDouble → Int) (token : wxString)
    (c : AgentCall) (h : lineCall mmToIU token = some c) :
    "JUNCTION".toList <+: token ∨ "WIRE".toList <+: token ∨
      "LABEL".toList <+: token ∨ "TEXT".toList <+: token := by
  have hp : parseLine mmToIU (Trim token) = some c := by
    unfold lineCall at h
    split at h
    · exact absurd h (by simp)
    · exact h
  have ht := Trim_isPrefix token
  unfold parseLine at hp
  split at hp
  · refine Or.inl ((isPrefix_of_wxSscanf _ "JUNCTION" 2 ?_).trans ht)
    intro he
    simp [he] at hp
  · split at hp
    · refine Or.inr (Or.inl ((isPrefix_of_wxSscanf _ "WIRE" 4 ?_).trans ht))
      intro he
      simp [he] at hp
    · split at hp
      · refine Or.inr (Or.inr (Or.inl ((isPrefix_of_wxSscanf _ "LABEL" 2 ?_).trans ht)))
        intro he
        simp [he] at hp
      · split at hp
        · refine Or.inr (Or.inr (Or.inr ((isPrefix_of_wxSscanf _ "TEXT" 2 ?_).trans ht)))
          intro he
          simp [he] at hp
        · exact absurd hp (by simp)

/-- Trimming a line with two double quotes keeps the quotes and what is before them. -/
theorem Trim_quoted (p q r : List Char) :
    Trim (p ++ '"' :: (q ++ '"' :: r)) = p ++ '"' :: (q ++ '"' :: Trim r) := by
  rw [Trim_append_cons p '"' _ (by decide), Trim_append_cons q '"' _ (by decide)]

/-- C5 (quoted text extraction). For every line in which `%lf` reads two coordinates after
`LABEL` (or `TEXT`) and which has at least two double quotes, `q` standing strictly between
the first and the second, the command emitted is a label (or a text) at those coordinates
whose text is exactly `q`, and no command is emitted when `q` is empty; for `LABEL 5 5 "VCC"`
the text is `VCC`. -/
theorem C5_quoted_text (mmToIU : ScannedDouble → Int) (token : wxString)
    (x y : ScannedDouble) (p q r : List Char)
    (htoken : token = p ++ '"' :: (q ++ '"' :: r)) (hp : '"' ∉ p) (hq : '"' ∉ q) :
    (wxSscanf token "LABEL" 2 = [x, y] →
      lineCall mmToIU token =
        if q = [] then none else some (AgentCall.AddLabel ⟨mmToIU x, mmToIU y⟩ q)) ∧
    (wxSscanf token "TEXT" 2 = [x, y] →
      lineCall mmToIU token =
        if q = [] then none else some (AgentCall.AddText ⟨mmToIU x, mmToIU y⟩ q)) ∧
    emitted mmToIU "LABEL 5 5 \"VCC\"".toList =
      [AgentCall.AddLabel ⟨mmToIU ['5'], mmToIU ['5']⟩ ['V', 'C', 'C']] := by
  have ht : extractText (Trim token) = q := by
    rw [htoken, Trim_quoted, extractText_quoted p q _ hp hq]
  refine ⟨?_, ?_, ?_⟩
  · intro h
    rw [lineCall_LABEL mmToIU token x y h, ht]
  · intro h
    rw [lineCall_TEXT mmToIU token x y h, ht]
  · rw [emitted_single mmToIU _ (by decide),
      lineCall_LABEL mmToIU _ ['5'] ['5'] (by decide)]
    have he : extractText (Trim "LABEL 5 5 \"VCC\"".toList) = ['V', 'C', 'C'] := by decide
    rw [he]
    rfl

/-- C5 at `TEXT 1.5 -2e3 "a  b" c "d"`, where the text keeps its inner spaces and stops at
the second double quote, and at `LABEL 5 5 ""`, where nothing is emitted. -/
theorem C5_quoted_text_witness :
    wxSscanf "TEXT 1.5 -2e3 \"a  b\" c \"d\"".toList "TEXT" 2 = ["1.5".toList, "-2e3".toList] ∧
    lineCall sampleMmToIU "TEXT 1.5 -2e3 \"a  b\" c \"d\"".toList =
      (if "a  b".toList = [] then none
        else some (AgentCall.AddText
          ⟨sampleMmToIU "1.5".toList, sampleMmToIU "-2e3".toList⟩ "a  b".toList)) ∧
    lineCall sampleMmToIU "LABEL 5 5 \"\"".toList = none :=
  ⟨by decide,
    (C5_quoted_text sampleMmToIU "TEXT 1.5 -2e3 \"a  b\" c \"d\"".toList
      "1.5".toList "-2e3".toList "TEXT 1.5 -2e3 ".toList "a  b".toList " c \"d\"".toList
      (by decide) (by decide) (by decide)).2.1 (by decide),
    by decide⟩

/-- C6 (unquoted text fallback). For every line without a double quote in which `%lf` reads
two coordinates after `LABEL` (or `TEXT`), the text of the command is the remainder of the
trimmed line after its third space-separated token, and no command is emitted when that
remainder is empty; `LABEL 5 5 VCC` emits a label with the text `VCC` and `LABEL 5 5` emits
nothing. -/
theorem C6_unquoted_fallback (mmToIU : ScannedDouble → Int) (token : wxString)
    (x y : ScannedDouble) (hq : '"' ∉ token) :
    (wxSscanf token "LABEL" 2 = [x, y] →
      lineCall mmToIU token =
        if remainderAfterThirdToken (Trim token) = [] then none
        else some (AgentCall.AddLabel ⟨mmToIU x, mmToIU y⟩
          (remainderAfterThirdToken (Trim token)))) ∧
    (wxSscanf token "TEXT" 2 = [x, y] →
      lineCall mmToIU token =
        if remainderAfterThirdToken (Trim token) = [] then none
        else some (AgentCall.AddText ⟨mmToIU x, mmToIU y⟩
          (remainderAfterThirdToken (Trim token)))) ∧
    emitted mmToIU "LABEL 5 5 VCC".toList =
      [AgentCall.AddLabel ⟨mmToIU ['5'], mmToIU ['5']⟩ ['V', 'C', 'C']] ∧
    emitted mmToIU "LABEL 5 5".toList = [] := by
  have hq2 : '"' ∉ Trim token := fun hm => hq ((Trim_isPrefix token).subset hm)
  have ht : extractText (Trim token) = remainderAfterThirdToken (Trim token) := by
    rw [extractText_unquoted _ hq2, AfterFirst3_eq_remainder]
  refine ⟨?_, ?_, ?_, ?_⟩
  · intro h
    rw [lineCall_LABEL mmToIU token x y h, ht]
  · intro h
    rw [lineCall_TEXT mmToIU token x y h, ht]
  · rw [emitted_single mmToIU _ (by decide),
      lineCall_LABEL mmToIU _ ['5'] ['5'] (by decide)]
    have he : extractText (Trim "LABEL 5 5 VCC".toList) = ['V', 'C', 'C'] := by decide
    rw [he]
    rfl
  · rw [emitted_single mmToIU _ (by decide),
      lineCall_LABEL mmToIU _ ['5'] ['5'] (by decide)]
    have he : extractText (Trim "LABEL 5 5".toList) = [] := by decide
    rw [he]
    rfl

/-- C6 at `TEXT 1 2 hello world  `, whose text is `hello world`. -/
theorem C6_unquoted_fallback_witness :
    '"' ∉ "TEXT 1 2 hello world  ".toList ∧
    wxSscanf "TEXT 1 2 hello world  ".toList "TEXT" 2 = [['1'], ['2']] ∧
    remainderAfterThirdToken (Trim "TEXT 1 2 hello world  ".toList) = "hello world".toList ∧
    lineCall sampleMmToIU "TEXT 1 2 hello world  ".toList =
      (if remainderAfterThirdToken (Trim "TEXT 1 2 hello world  ".toList) = [] then none
        else some (AgentCall.AddText ⟨sampleMmToIU ['1'], sampleMmToIU ['2']⟩
          (remainderAfterThirdToken (Trim "TEXT 1 2 hello world  ".toList)))) :=
  ⟨by decide, by decide, by decide,
    (C6_unquoted_fallback sampleMmToIU "TEXT 1 2 hello world  ".toList ['1'] ['2']
      (by decide)).2.1 (by decide)⟩

/-! ## Reading numbers: what is consumed and what is left make up the input -/

theorem scanSign_eq (s : List Char) : (scanSign s).1 ++ (scanSign s).2 = s := by
  cases s with
  | nil => rfl
  | cons c r => by_cases hc : c = '+' ∨ c = '-' <;> simp [scanSign, hc]

theorem scanNumberChars_eq (hexa gotDigit gotDot gotE afterExp : Bool) (s : List Char) :
    (scanNumberChars hexa gotDigit gotDot gotE afterExp s).1 ++
      (scanNumberChars hexa gotDigit gotDot gotE afterExp s).2 = s := by
  induction s generalizing gotDigit gotDot gotE afterExp with
  | nil => rfl
  | cons d t ih =>
    simp only [scanNumberChars]
    split_ifs <;> simp [ih]

theorem scanWord_eq (w s m r : List Char) (h : scanWord w s = some (m, r)) : m ++ r = s := by
  induction w generalizing s m r with
  | nil =>
    simp only [scanWord, Option.some.injEq, Prod.mk.injEq] at h
    rw [← h.1, ← h.2]; rfl
  | cons k w ih =>
    cases s with
    | nil => simp [scanWord] at h
    | cons c t =>
      simp only [scanWord] at h
      by_cases hc : c.toLower = k
      · simp only [hc, if_true] at h
        cases hx : scanWord w t with
        | none => simp [hx] at h
        | some mr =>
          obtain ⟨m1, r1⟩ := mr
          rw [hx] at h
          simp only [Option.some.injEq, Prod.mk.injEq] at h
          rw [← h.1, ← h.2, List.cons_append, ih t m1 r1 hx]
      · simp [hc] at h

theorem scanUnsigned_eq (s m r : List Char) (h : scanUnsigned s = some (m, r)) :
    m ++ r = s := by
  cases s with
  | nil => simp [scanUnsigned] at h
  | cons c t =>
    simp only [scanUnsigned] at h
    by_cases h2 : c.toLower = 'n'
    · simp only [h2, if_true] at h
      exact scanWord_eq _ _ m r h
    · simp only [h2, if_false] at h
      by_cases h1 : c.toLower = 'i'
      · simp only [h1, if_true] at h
        cases hw : scanWord ['i', 'n', 'f'] (c :: t) with
        | none => simp [hw] at h
        | some mr =>
          obtain ⟨m0, r1⟩ := mr
          have e0 := scanWord_eq _ _ m0 r1 hw
          rw [hw] at h
          simp only [] at h
          cases r1 with
          | nil =>
            simp only [Option.some.injEq, Prod.mk.injEq] at h
            rw [← h.1, ← h.2]; exact e0
          | cons d r2 =>
            simp only [] at h
            by_cases hd : d.toLower = 'i'
            · simp only [hd, if_true] at h
              cases hw2 : scanWord ['i', 'n', 'i', 't', 'y'] (d :: r2) with
              | none => simp [hw2] at h
              | some mr2 =>
                obtain ⟨m1, r3⟩ := mr2
                have e1 := scanWord_eq _ _ m1 r3 hw2
                rw [hw2] at h
                simp only [Option.some.injEq, Prod.mk.injEq] at h
                rw [← h.1, ← h.2, List.append_assoc, e1]; exact e0
            · simp only [hd, if_false, Option.some.injEq, Prod.mk.injEq] at h
              rw [← h.1, ← h.2]; exact e0
      · simp only [h1, if_false] at h
        by_cases hz : c = '0'
        · simp only [hz, if_true] at h
          cases t with
          | nil =>
            simp only [Option.some.injEq, Prod.mk.injEq] at h
            rw [← h.1, ← h.2, hz]; rfl
          | cons x t1 =>
            simp only [] at h
            by_cases hhex : x.toLower = 'x'
            · simp only [hhex, if_true] at h
              by_cases hem : (scanNumberChars true false false false false t1).1.isEmpty = true
              · simp [hem] at h
              · simp only [hem] at h
                simp only [Bool.false_eq_true, if_false, Option.some.injEq,
                  Prod.mk.injEq] at h
                rw [← h.1, ← h.2, hz, List.cons_append, List.cons_append,
                  scanNumberChars_eq]
            · simp only [hhex, if_false, Option.some.injEq, Prod.mk.injEq] at h
              rw [← h.1, ← h.2, hz, List.cons_append, scanNumberChars_eq]
        · simp only [hz, if_false] at h
          by_cases hany :
              (scanNumberChars false false false false false (c :: t)).1.any Char.isDigit = true
          · simp only [hany, if_true, Option.some.injEq] at h
            have e := scanNumberChars_eq false false false false false (c :: t)
            rw [h] at e
            exact e
          · simp [hany] at h

/-- What `%lf` reads and what it leaves make up the input after its leading white space. -/
theorem scanDouble_eq (s x r : List Char) (h : scanDouble s = some (x, r)) :
    x ++ r = s.dropWhile isspace := by
  unfold scanDouble at h
  simp only [] at h
  cases hu : scanUnsigned (scanSign (s.dropWhile isspace)).2 with
  | none => simp [hu] at h
  | some mr =>
    obtain ⟨m, r1⟩ := mr
    rw [hu] at h
    simp only [Option.some.injEq, Prod.mk.injEq] at h
    rw [← h.1, ← h.2, List.append_assoc, scanUnsigned_eq _ m r1 hu, scanSign_eq]

theorem dropWhile_isspace_of_isToken (t r : List Char) (h : isToken t = true) :
    (t ++ r).dropWhile isspace = t ++ r ∧ t.dropWhile isspace ≠ [] := by
  cases t with
  | nil => simp [isToken] at h
  | cons c u =>
    have hc : isspace c = false := by
      simp only [isToken, List.isEmpty_cons, Bool.not_false, Bool.true_and, List.all_cons,
        Bool.and_eq_true, Bool.not_eq_true'] at h
      exact h.1
    simp [List.dropWhile_cons, hc]

/-- What is left of a token after a number is empty or again a token. -/
theorem isToken_rest (t x r : List Char) (ht : isToken t = true)
    (h : scanDouble t = some (x, r)) : r = [] ∨ isToken r = true := by
  have e := scanDouble_eq t x r h
  have hd := (dropWhile_isspace_of_isToken t [] ht).1
  simp only [List.append_nil] at hd
  rw [hd] at e
  cases r with
  | nil => exact Or.inl rfl
  | cons c u =>
    right
    simp only [isToken, Bool.and_eq_true, Bool.not_eq_true', List.all_eq_true] at ht ⊢
    refine ⟨by simp, ?_⟩
    intro d hdm
    exact ht.2 d (by rw [← e]; exact List.mem_append_right _ hdm)

theorem scanDouble_dropWhile (s : List Char) :
    scanDouble (s.dropWhile isspace) = scanDouble s := by
  unfold scanDouble
  rw [dropWhile_dropWhile]

theorem scanDouble_space (s : List Char) : scanDouble (' ' :: s) = scanDouble s := by
  rw [← scanDouble_dropWhile (' ' :: s), ← scanDouble_dropWhile s]
  have hsp : isspace ' ' = true := by decide
  simp [List.dropWhile_cons, hsp]

/-- The directives ` %lf`, once more: the first number is read from the input as `%lf` alone
reads it. -/
theorem scanDoubles_succ (n : Nat) (s : List Char) :
    scanDoubles (n + 1) s =
      match scanDouble s with
      | none => []
      | some (x, r) => x :: scanDoubles n r := by
  simp only [scanDoubles]
  rw [scanDouble_dropWhile]

/-- A number is read from a token, whatever follows the space after the token. -/
theorem scanDouble_token (t r : List Char) (ht : isToken t = true) :
    scanDouble (t ++ ' ' :: r) = extend (' ' :: r) (scanDouble t) :=
  scanDouble_append t ' ' r (by decide) (dropWhile_isspace_of_isToken t [] ht).2

/-- The numbers that `wxSscanf` reads with two conversions on a keyword followed by two
tokens, one space before each. -/
theorem scanDoubles_two_tokens (t1 t2 : List Char) (h1 : isToken t1 = true) :
    scanDoubles 2 (' ' :: (t1 ++ ' ' :: t2)) =
      match scanDouble t1 with
      | none => []
      | some (x, r0) =>
        match scanDouble (if r0 = [] then t2 else r0) with
        | none => [x]
        | some (y, _) => [x, y] := by
  rw [scanDoubles_succ, scanDouble_space, scanDouble_token t1 t2 h1]
  cases hd : scanDouble t1 with
  | none => simp [extend]
  | some xr =>
    obtain ⟨x, r0⟩ := xr
    simp only [extend, Option.map_some']
    rw [scanDoubles_succ]
    by_cases hr : r0 = []
    · subst hr
      simp only [List.nil_append, if_true, scanDouble_space]
      cases scanDouble t2 with
      | none => rfl
      | some yr => simp [scanDoubles]
    · have hr0 : isToken r0 = true := by
        rcases isToken_rest t1 x r0 h1 hd with h | h
        · exact absurd h hr
        · exact h
      simp only [hr, if_false]
      rw [scanDouble_token r0 t2 hr0]
      cases scanDouble r0 with
      | none => simp [extend]
      | some yr => simp [extend, scanDoubles]

theorem wxSscanf_JUNCTION_tokens (t1 t2 : List Char) :
    wxSscanf ("JUNCTION ".toList ++ t1 ++ ' ' :: t2) "JUNCTION" 2 =
      scanDoubles 2 (' ' :: (t1 ++ ' ' :: t2)) := by
  simp [wxSscanf, String.toList, String.length]

/-- A line feed is white space, so a token has none. -/
theorem not_mem_of_isToken (t : List Char) (ht : isToken t = true) : '\n' ∉ t := by
  intro hm
  simp only [isToken, Bool.and_eq_true, Bool.not_eq_true', List.all_eq_true] at ht
  have := ht.2 '\n' hm
  simp [isspace] at this

/-- C4, as amended (malformed numbers after `JUNCTION`). For every line `JUNCTION t1 t2`
with tokens `t1` and `t2`, no command is emitted exactly when `%lf` cannot read two numbers
in a row: `%lf` reads no number at the beginning of `t1`; or it consumes `t1` whole and reads
no number at the beginning of `t2`; or it reads a number at the beginning of `t1` and none
at the beginning of what is left of `t1`. When no command is emitted the lines before and
after are still processed. For `"JUNCTION abc 50\nWIRE 1 1 2 2"` exactly the wire is emitted
and `ParseAndExecute` returns `true`; `JUNCTION 1e 5` emits a junction, its first number read
from `1e`. -/
theorem C4_malformed_numbers (mmToIU : ScannedDouble → Int) (t1 t2 : List Char)
    (h1 : isToken t1 = true) (h2 : isToken t2 = true) :
    (lineCall mmToIU ("JUNCTION ".toList ++ t1 ++ ' ' :: t2) = none ↔
      (scanDouble t1 = none ∨
        ∃ x r0, scanDouble t1 = some (x, r0) ∧
          ((r0 = [] ∧ scanDouble t2 = none) ∨ (r0 ≠ [] ∧ scanDouble r0 = none)))) ∧
    (∀ a b : wxString, lineCall mmToIU ("JUNCTION ".toList ++ t1 ++ ' ' :: t2) = none →
      emitted mmToIU (a ++ '\n' :: (("JUNCTION ".toList ++ t1 ++ ' ' :: t2) ++ '\n' :: b)) =
        emitted mmToIU a ++ emitted mmToIU b) ∧
    emitted mmToIU "JUNCTION abc 50\nWIRE 1 1 2 2".toList =
      [AgentCall.AddWire ⟨mmToIU ['1'], mmToIU ['1']⟩ ⟨mmToIU ['2'], mmToIU ['2']⟩] ∧
    (∀ ag : SCH_AGENT,
      (ParseAndExecute mmToIU ag "JUNCTION abc 50\nWIRE 1 1 2 2".toList).1 = true) ∧
    emitted mmToIU "JUNCTION 1e 5".toList =
      [AgentCall.AddJunction ⟨mmToIU ['1', 'e'], mmToIU ['5']⟩] := by
  have hex : emitted mmToIU "JUNCTION abc 50\nWIRE 1 1 2 2".toList =
      [AgentCall.AddWire ⟨mmToIU ['1'], mmToIU ['1']⟩ ⟨mmToIU ['2'], mmToIU ['2']⟩] := by
    have hs : "JUNCTION abc 50\nWIRE 1 1 2 2".toList =
        "JUNCTION abc 50".toList ++ '\n' :: "WIRE 1 1 2 2".toList := by decide
    rw [hs, emitted_append, emitted_single mmToIU _ (by decide),
      emitted_single mmToIU _ (by decide), lineCall_JUNCTION mmToIU _ (by decide),
      lineCall_WIRE mmToIU _ (by decide)]
    have e1 : wxSscanf "JUNCTION abc 50".toList "JUNCTION" 2 = [] := by decide
    have e2 : wxSscanf "WIRE 1 1 2 2".toList "WIRE" 4 = [['1'], ['1'], ['2'], ['2']] := by
      decide
    rw [e1, e2]
    rfl
  refine ⟨?_, ?_, hex, ?_, ?_⟩
  · rw [lineCall_JUNCTION mmToIU _ (by simp [String.toList]), wxSscanf_JUNCTION_tokens,
      scanDoubles_two_tokens t1 t2 h1]
    cases hd : scanDouble t1 with
    | none => simp
    | some xr =>
      obtain ⟨x, r0⟩ := xr
      by_cases hr : r0 = []
      · subst hr
        cases hd2 : scanDouble t2 with
        | none =>
          simp only [if_true, hd2, true_iff]
          exact Or.inr ⟨x, [], rfl, Or.inl ⟨rfl, trivial⟩⟩
        | some yr => simp [hd2]
      · cases hd2 : scanDouble r0 with
        | none =>
          simp only [hr, if_false, hd2, true_iff]
          exact Or.inr ⟨x, r0, rfl, Or.inr ⟨hr, hd2⟩⟩
        | some yr => simp [hr, hd2]
  · intro a b hn
    have hnl : '\n' ∉ "JUNCTION ".toList ++ t1 ++ ' ' :: t2 := by
      have n1 := not_mem_of_isToken t1 h1
      have n2 := not_mem_of_isToken t2 h2
      simp [String.toList, n1, n2]
    rw [emitted_append, emitted_append, emitted_single mmToIU _ hnl, hn]
    rfl
  · intro ag
    rw [ParseAndExecute_eq, hex]
    rfl
  · rw [emitted_single mmToIU _ (by decide), lineCall_JUNCTION mmToIU _ (by decide)]
    have e : wxSscanf "JUNCTION 1e 5".toList "JUNCTION" 2 = [['1', 'e'], ['5']] := by decide
    rw [e]
    rfl

/-- C4, as amended, at `JUNCTION abc 50` between two other lines: `abc` does not begin with a
number, the line emits nothing, and the lines around it are processed. -/
theorem C4_malformed_numbers_witness :
    isToken "abc".toList = true ∧ isToken "50".toList = true ∧
    scanDouble "abc".toList = none ∧
    lineCall sampleMmToIU ("JUNCTION ".toList ++ "abc".toList ++ ' ' :: "50".toList) = none ∧
    emitted sampleMmToIU
      ("JUNCTION 3 4".toList ++
        '\n' :: (("JUNCTION ".toList ++ "abc".toList ++ ' ' :: "50".toList) ++
          '\n' :: "WIRE 1 1 2 2".toList)) =
      emitted sampleMmToIU "JUNCTION 3 4".toList ++
        emitted sampleMmToIU "WIRE 1 1 2 2".toList :=
  ⟨by decide, by decide, by decide,
    (C4_malformed_numbers sampleMmToIU "abc".toList "50".toList (by decide) (by decide)).1.mpr
      (Or.inl (by decide)),
    (C4_malformed_numbers sampleMmToIU "abc".toList "50".toList (by decide) (by decide)).2.1
      "JUNCTION 3 4".toList "WIRE 1 1 2 2".toList (by decide)⟩

/-- C4 as stated fails: in `JUNCTION 1 2abc` the token `2abc` is not a well-formed number,
and in `JUNCTION 1-2 50` the token `1-2` is not one, yet a junction is emitted for each. -/
theorem C4_counterexample :
    isToken "2abc".toList = true ∧ wellFormedNumber "2abc".toList = false ∧
    emitted sampleMmToIU "JUNCTION 1 2abc".toList =
      [AgentCall.AddJunction ⟨10000, 20000⟩] ∧
    isToken "1-2".toList = true ∧ wellFormedNumber "1-2".toList = false ∧
    emitted sampleMmToIU "JUNCTION 1-2 50".toList =
      [AgentCall.AddJunction ⟨10000, -20000⟩] := by
  decide

/-- C7 (keyword case): the keyword is matched without regard to case by the branch test, and
with regard to case by `wxSscanf`, so a line whose keyword is not in upper case emits
nothing, while the same line in upper case emits a command. -/
theorem C7_keyword_case :
    emitted sampleMmToIU "junction 100 50".toList = [] ∧
    emitted sampleMmToIU "JUNCTION 100 50".toList =
      [AgentCall.AddJunction ⟨1000000, 500000⟩] ∧
    emitted sampleMmToIU "Wire 1 1 2 2".toList = [] ∧
    emitted sampleMmToIU "WIRE 1 1 2 2".toList =
      [AgentCall.AddWire ⟨10000, 10000⟩ ⟨20000, 20000⟩] ∧
    StartsWith (Upper "junction 100 50".toList) "JUNCTION" = true ∧
    wxSscanf "junction 100 50".toList "JUNCTION" 2 = [] := by
  decide

/-! ## Lines with well-formed numbers -/

theorem wxSscanf_keyword_append (keyword : String) (n : Nat) (rest : List Char) :
    wxSscanf (keyword.toList ++ rest) keyword n = scanDoubles n rest := by
  have hlen : keyword.length = keyword.toList.length := rfl
  unfold wxSscanf
  rw [if_pos (by simp), hlen, List.drop_left]

theorem scanDoubles_nil (n : Nat) : scanDoubles n [] = [] := by
  cases n with
  | zero => rfl
  | succ n => rfl

theorem scanDouble_of_wellFormed (t : List Char) (h : wellFormedNumber t = true) :
    scanDouble t = some (t, []) := by
  simpa [wellFormedNumber] using h

/-- After a space, a token that is a well-formed number is read whole, when the token ends the
input or a space follows it. -/
theorem scanDoubles_wellFormed (n : Nat) (t rest : List Char) (ht : isToken t = true)
    (hw : wellFormedNumber t = true) (hr : rest = [] ∨ ∃ r, rest = ' ' :: r) :
    scanDoubles (n + 1) (' ' :: (t ++ rest)) = t :: scanDoubles n rest := by
  have hs := scanDouble_of_wellFormed t hw
  rw [scanDoubles_succ, scanDouble_space]
  rcases hr with hr | ⟨r, hr⟩
  · subst hr
    rw [List.append_nil, hs]
  · subst hr
    rw [scanDouble_token t r ht, hs]
    simp [extend]

/-- On a bound session `ParseAndExecute` returns whether a command was emitted, pushes one
transaction that holds the primitives of the emitted commands in order, and ends outside a
batch with an empty pending transaction. -/
theorem ParseAndExecute_bound (mmToIU : ScannedDouble → Int) (ag : SCH_AGENT)
    (scr : SCH_SCREEN) (h : ag.m_screen = some scr) (s : wxString) :
    ParseAndExecute mmToIU ag s =
      (!(emitted mmToIU s).isEmpty,
        { ag with
          m_frame :=
            { ag.m_frame with
              undoList := ag.m_frame.undoList ++
                [⟨"Ollama agent operation",
                  (emitted mmToIU s).map (fun c => (c.item, scr))⟩] }
          m_commit := SCH_COMMIT.fresh
          m_inBatch := false }) := by
  have hs : ag.BeginBatch.m_screen = some scr := by simp [SCH_AGENT.BeginBatch, h]
  have hb : ag.BeginBatch.m_inBatch = true := by simp [SCH_AGENT.BeginBatch]
  rw [ParseAndExecute_eq, runCalls_inBatch _ _ scr hs hb]
  simp [SCH_AGENT.BeginBatch, SCH_AGENT.EndBatch, SCH_COMMIT.Push, SCH_COMMIT.fresh]

/-- On an unbound session `ParseAndExecute` returns whether a command was emitted and pushes
one transaction without primitives. -/
theorem ParseAndExecute_unbound (mmToIU : ScannedDouble → Int) (ag : SCH_AGENT)
    (h : ag.m_screen = none) (s : wxString) :
    ParseAndExecute mmToIU ag s =
      (!(emitted mmToIU s).isEmpty,
        { ag with
          m_frame :=
            { ag.m_frame with
              undoList := ag.m_frame.undoList ++ [⟨"Ollama agent operation", []⟩] }
          m_commit := SCH_COMMIT.fresh
          m_inBatch := false }) := by
  have hs : ag.BeginBatch.m_screen = none := by simp [SCH_AGENT.BeginBatch, h]
  rw [ParseAndExecute_eq, runCalls_unbound _ _ hs]
  simp [SCH_AGENT.BeginBatch, SCH_AGENT.EndBatch, SCH_COMMIT.Push, SCH_COMMIT.fresh]

/-- The numbers read on a `WIRE` line with four well-formed numbers. -/
theorem wxSscanf_WIRE_wellFormed (x1 y1 x2 y2 rest : List Char)
    (h1 : isToken x1 = true ∧ wellFormedNumber x1 = true)
    (h2 : isToken y1 = true ∧ wellFormedNumber y1 = true)
    (h3 : isToken x2 = true ∧ wellFormedNumber x2 = true)
    (h4 : isToken y2 = true ∧ wellFormedNumber y2 = true)
    (hr : rest = [] ∨ ∃ r, rest = ' ' :: r) :
    wxSscanf ("WIRE".toList ++ ' ' :: (x1 ++ ' ' :: (y1 ++ ' ' :: (x2 ++ ' ' :: (y2 ++ rest)))))
      "WIRE" 4 = [x1, y1, x2, y2] := by
  rw [wxSscanf_keyword_append,
    scanDoubles_wellFormed 3 x1 _ h1.1 h1.2 (Or.inr ⟨_, rfl⟩),
    scanDoubles_wellFormed 2 y1 _ h2.1 h2.2 (Or.inr ⟨_, rfl⟩),
    scanDoubles_wellFormed 1 x2 _ h3.1 h3.2 (Or.inr ⟨_, rfl⟩),
    scanDoubles_wellFormed 0 y2 _ h4.1 h4.2 hr]
  rfl

/-- The numbers read on a `JUNCTION`, `LABEL` or `TEXT` line with two well-formed numbers. -/
theorem wxSscanf_two_wellFormed (keyword : String) (x y rest : List Char)
    (h1 : isToken x = true ∧ wellFormedNumber x = true)
    (h2 : isToken y = true ∧ wellFormedNumber y = true)
    (hr : rest = [] ∨ ∃ r, rest = ' ' :: r) :
    wxSscanf (keyword.toList ++ ' ' :: (x ++ ' ' :: (y ++ rest))) keyword 2 = [x, y] := by
  rw [wxSscanf_keyword_append,
    scanDoubles_wellFormed 1 x _ h1.1 h1.2 (Or.inr ⟨_, rfl⟩),
    scanDoubles_wellFormed 0 y _ h2.1 h2.2 hr]
  rfl

theorem scanDoubles_wellFormed_last (n : Nat) (t : List Char) (ht : isToken t = true)
    (hw : wellFormedNumber t = true) : scanDoubles (n + 1) (' ' :: t) = [t] := by
  have h := scanDoubles_wellFormed n t [] ht hw (Or.inl rfl)
  rw [List.append_nil, scanDoubles_nil] at h
  exact h

theorem isPrefix_keyword_append (keyword : String) (rest : List Char) :
    keyword.toList <+: keyword.toList ++ rest := List.prefix_append _ _

/-- C11 (happy-path wire). For every line `WIRE x1 y1 x2 y2` with four well-formed numbers,
alone or followed by a space and more text, exactly one wire is emitted, from the conversion
of (x1, y1) to the conversion of (x2, y2); on a bound session the one transaction pushed holds
one line primitive with these end points, the layer `LAYER_WIRE` and the default stroke, as
every primitive built by `AddWire` does; a `WIRE` line with zero to three well-formed numbers
emits nothing, as does every `WIRE` line on which `%lf` reads fewer than four numbers; and
`WIRE 10 10 20 20` emits the wire from (10, 10) to (20, 20). -/
theorem C11_happy_path_wire (mmToIU : ScannedDouble → Int) (x1 y1 x2 y2 rest : List Char)
    (h1 : isToken x1 = true ∧ wellFormedNumber x1 = true)
    (h2 : isToken y1 = true ∧ wellFormedNumber y1 = true)
    (h3 : isToken x2 = true ∧ wellFormedNumber x2 = true)
    (h4 : isToken y2 = true ∧ wellFormedNumber y2 = true)
    (hr : rest = [] ∨ ∃ r, rest = ' ' :: r) (hn : '\n' ∉ rest) :
    emitted mmToIU
      ("WIRE".toList ++ ' ' :: (x1 ++ ' ' :: (y1 ++ ' ' :: (x2 ++ ' ' :: (y2 ++ rest))))) =
      [AgentCall.AddWire ⟨mmToIU x1, mmToIU y1⟩ ⟨mmToIU x2, mmToIU y2⟩] ∧
    (∀ (ag : SCH_AGENT) (scr : SCH_SCREEN), ag.m_screen = some scr →
      (ParseAndExecute mmToIU ag
        ("WIRE".toList ++ ' ' :: (x1 ++ ' ' :: (y1 ++ ' ' :: (x2 ++ ' ' :: (y2 ++ rest)))))
        ).2.m_frame.undoList =
        ag.m_frame.undoList ++
          [⟨"Ollama agent operation",
            [(SCH_ITEM.SCH_LINE ⟨mmToIU x1, mmToIU y1⟩ ⟨mmToIU x2, mmToIU y2⟩
              SCH_LAYER_ID.LAYER_WIRE STROKE_PARAMS.default, scr)]⟩]) ∧
    (∀ (ag : SCH_AGENT) (scr : SCH_SCREEN) (aStart aEnd : VECTOR2I),
      ag.m_screen = some scr →
      (ag.m_inBatch = true →
        (ag.AddWire aStart aEnd).2.m_commit.staged =
          ag.m_commit.staged ++
            [(SCH_ITEM.SCH_LINE aStart aEnd SCH_LAYER_ID.LAYER_WIRE STROKE_PARAMS.default,
              scr)]) ∧
      (ag.m_inBatch = false →
        (ag.AddWire aStart aEnd).2.m_frame.undoList =
          ag.m_frame.undoList ++
            [⟨"Added wire", ag.m_commit.staged ++
              [(SCH_ITEM.SCH_LINE aStart aEnd SCH_LAYER_ID.LAYER_WIRE STROKE_PARAMS.default,
                scr)]⟩])) ∧
    (lineCall mmToIU "WIRE".toList = none ∧
      lineCall mmToIU ("WIRE".toList ++ ' ' :: x1) = none ∧
      lineCall mmToIU ("WIRE".toList ++ ' ' :: (x1 ++ ' ' :: y1)) = none ∧
      lineCall mmToIU ("WIRE".toList ++ ' ' :: (x1 ++ ' ' :: (y1 ++ ' ' :: x2))) = none) ∧
    (∀ token : wxString, "WIRE".toList <+: token →
      (wxSscanf token "WIRE" 4).length < 4 → lineCall mmToIU token = none) ∧
    emitted mmToIU "WIRE 10 10 20 20".toList =
      [AgentCall.AddWire ⟨mmToIU ['1', '0'], mmToIU ['1', '0']⟩
        ⟨mmToIU ['2', '0'], mmToIU ['2', '0']⟩] := by
  have hscan := wxSscanf_WIRE_wellFormed x1 y1 x2 y2 rest h1 h2 h3 h4 hr
  have hnl : '\n' ∉
      "WIRE".toList ++ ' ' :: (x1 ++ ' ' :: (y1 ++ ' ' :: (x2 ++ ' ' :: (y2 ++ rest)))) := by
    have n1 := not_mem_of_isToken x1 h1.1
    have n2 := not_mem_of_isToken y1 h2.1
    have n3 := not_mem_of_isToken x2 h3.1
    have n4 := not_mem_of_isToken y2 h4.1
    simp [String.toList, n1, n2, n3, n4, hn]
  have hem : emitted mmToIU
      ("WIRE".toList ++ ' ' :: (x1 ++ ' ' :: (y1 ++ ' ' :: (x2 ++ ' ' :: (y2 ++ rest))))) =
      [AgentCall.AddWire ⟨mmToIU x1, mmToIU y1⟩ ⟨mmToIU x2, mmToIU y2⟩] := by
    rw [emitted_single mmToIU _ hnl,
      lineCall_WIRE mmToIU _ (isPrefix_keyword_append "WIRE" _), hscan]
    rfl
  refine ⟨hem, ?_, ?_, ⟨?_, ?_, ?_, ?_⟩, ?_, ?_⟩
  · intro ag scr hs
    rw [ParseAndExecute_bound mmToIU ag scr hs, hem]
    rfl
  · intro ag scr aStart aEnd hs
    have hrun := AgentCall.run_bound (AgentCall.AddWire aStart aEnd) ag scr hs
    simp only [AgentCall.run, AgentCall.item, AgentCall.description] at hrun
    constructor
    · intro hb
      rw [hrun]
      simp [hb]
    · intro hb
      rw [hrun]
      simp [hb]
  · rw [lineCall_WIRE mmToIU _ (by exact List.prefix_refl _)]
    have e : wxSscanf "WIRE".toList "WIRE" 4 = [] := by decide
    rw [e]
  · rw [lineCall_WIRE mmToIU _ (isPrefix_keyword_append "WIRE" _), wxSscanf_keyword_append,
      scanDoubles_wellFormed_last 3 x1 h1.1 h1.2]
  · rw [lineCall_WIRE mmToIU _ (isPrefix_keyword_append "WIRE" _), wxSscanf_keyword_append,
      scanDoubles_wellFormed 3 x1 _ h1.1 h1.2 (Or.inr ⟨_, rfl⟩),
      scanDoubles_wellFormed_last 2 y1 h2.1 h2.2]
  · rw [lineCall_WIRE mmToIU _ (isPrefix_keyword_append "WIRE" _), wxSscanf_keyword_append,
      scanDoubles_wellFormed 3 x1 _ h1.1 h1.2 (Or.inr ⟨_, rfl⟩),
      scanDoubles_wellFormed 2 y1 _ h2.1 h2.2 (Or.inr ⟨_, rfl⟩),
      scanDoubles_wellFormed_last 1 x2 h3.1 h3.2]
  · intro token hpre hlen
    rw [lineCall_WIRE mmToIU token hpre]
    split
    · rename_i heq
      rw [heq] at hlen
      simp at hlen
    · rfl
  · rw [emitted_single mmToIU _ (by decide), lineCall_WIRE mmToIU _ (by decide)]
    have e : wxSscanf "WIRE 10 10 20 20".toList "WIRE" 4 =
        [['1', '0'], ['1', '0'], ['2', '0'], ['2', '0']] := by decide
    rw [e]
    rfl

/-- C11 at `WIRE 1.5 -2 3e2 0x1F now`, a line with four well-formed numbers and a remark. -/
theorem C11_happy_path_wire_witness :
    (isToken "1.5".toList = true ∧ wellFormedNumber "1.5".toList = true) ∧
    (isToken "-2".toList = true ∧ wellFormedNumber "-2".toList = true) ∧
    (isToken "3e2".toList = true ∧ wellFormedNumber "3e2".toList = true) ∧
    (isToken "0x1F".toList = true ∧ wellFormedNumber "0x1F".toList = true) ∧
    "WIRE".toList ++ ' ' :: ("1.5".toList ++ ' ' :: ("-2".toList ++ ' ' :: ("3e2".toList ++
      ' ' :: ("0x1F".toList ++ " now".toList)))) = "WIRE 1.5 -2 3e2 0x1F now".toList ∧
    emitted sampleMmToIU
      ("WIRE".toList ++ ' ' :: ("1.5".toList ++ ' ' :: ("-2".toList ++ ' ' :: ("3e2".toList ++
        ' ' :: ("0x1F".toList ++ " now".toList))))) =
      [AgentCall.AddWire ⟨sampleMmToIU "1.5".toList, sampleMmToIU "-2".toList⟩
        ⟨sampleMmToIU "3e2".toList, sampleMmToIU "0x1F".toList⟩] :=
  ⟨by decide, by decide, by decide, by decide, by decide,
    (C11_happy_path_wire sampleMmToIU "1.5".toList "-2".toList "3e2".toList "0x1F".toList
      " now".toList (by decide) (by decide) (by decide) (by decide)
      (Or.inr ⟨"now".toList, rfl⟩) (by decide)).1⟩

/-- C12 (happy-path junction). For every line `JUNCTION x y` with two well-formed numbers,
alone or followed by a space and more text, exactly one junction is emitted, at
(mmToIU x, mmToIU y) with x from the first number and y from the second, and
`ParseAndExecute` returns `true`; on a bound session the one transaction pushed holds exactly
that junction; for `JUNCTION 100 50` it is the junction at the conversions of 100 and 50. -/
theorem C12_happy_path_junction (mmToIU : ScannedDouble → Int) (x y rest : List Char)
    (h1 : isToken x = true ∧ wellFormedNumber x = true)
    (h2 : isToken y = true ∧ wellFormedNumber y = true)
    (hr : rest = [] ∨ ∃ r, rest = ' ' :: r) (hn : '\n' ∉ rest) :
    emitted mmToIU ("JUNCTION".toList ++ ' ' :: (x ++ ' ' :: (y ++ rest))) =
      [AgentCall.AddJunction ⟨mmToIU x, mmToIU y⟩] ∧
    (∀ ag : SCH_AGENT,
      (ParseAndExecute mmToIU ag
        ("JUNCTION".toList ++ ' ' :: (x ++ ' ' :: (y ++ rest)))).1 = true) ∧
    (∀ (ag : SCH_AGENT) (scr : SCH_SCREEN), ag.m_screen = some scr →
      (ParseAndExecute mmToIU ag
        ("JUNCTION".toList ++ ' ' :: (x ++ ' ' :: (y ++ rest)))).2.m_frame.undoList =
        ag.m_frame.undoList ++
          [⟨"Ollama agent operation",
            [(SCH_ITEM.SCH_JUNCTION ⟨mmToIU x, mmToIU y⟩, scr)]⟩]) ∧
    (∀ (ag : SCH_AGENT) (scr : SCH_SCREEN), ag.m_screen = some scr →
      (ParseAndExecute mmToIU ag "JUNCTION 100 50".toList).1 = true ∧
      (ParseAndExecute mmToIU ag "JUNCTION 100 50".toList).2.m_frame.undoList =
        ag.m_frame.undoList ++
          [⟨"Ollama agent operation",
            [(SCH_ITEM.SCH_JUNCTION ⟨mmToIU ['1', '0', '0'], mmToIU ['5', '0']⟩, scr)]⟩]) := by
  have hscan := wxSscanf_two_wellFormed "JUNCTION" x y rest h1 h2 hr
  have hnl : '\n' ∉ "JUNCTION".toList ++ ' ' :: (x ++ ' ' :: (y ++ rest)) := by
    have n1 := not_mem_of_isToken x h1.1
    have n2 := not_mem_of_isToken y h2.1
    simp [String.toList, n1, n2, hn]
  have hem : emitted mmToIU ("JUNCTION".toList ++ ' ' :: (x ++ ' ' :: (y ++ rest))) =
      [AgentCall.AddJunction ⟨mmToIU x, mmToIU y⟩] := by
    rw [emitted_single mmToIU _ hnl,
      lineCall_JUNCTION mmToIU _ (isPrefix_keyword_append "JUNCTION" _), hscan]
    rfl
  have hex : emitted mmToIU "JUNCTION 100 50".toList =
      [AgentCall.AddJunction ⟨mmToIU ['1', '0', '0'], mmToIU ['5', '0']⟩] := by
    rw [emitted_single mmToIU _ (by decide), lineCall_JUNCTION mmToIU _ (by decide)]
    have e : wxSscanf "JUNCTION 100 50".toList "JUNCTION" 2 = [['1', '0', '0'], ['5', '0']] := by
      decide
    rw [e]
    rfl
  refine ⟨hem, ?_, ?_, ?_⟩
  · intro ag
    rw [ParseAndExecute_eq, hem]
    rfl
  · intro ag scr hs
    rw [ParseAndExecute_bound mmToIU ag scr hs, hem]
    rfl
  · intro ag scr hs
    rw [ParseAndExecute_bound mmToIU ag scr hs, hex]
    exact ⟨rfl, rfl⟩

/-- C12 at `JUNCTION 100 50` on a new session: one transaction with one junction. -/
theorem C12_happy_path_junction_witness :
    (isToken "100".toList = true ∧ wellFormedNumber "100".toList = true) ∧
    (isToken "50".toList = true ∧ wellFormedNumber "50".toList = true) ∧
    (SCH_AGENT.new sampleFrame).m_screen = some 7 ∧
    "JUNCTION".toList ++ ' ' :: ("100".toList ++ ' ' :: ("50".toList ++ [])) =
      "JUNCTION 100 50".toList ∧
    (ParseAndExecute sampleMmToIU (SCH_AGENT.new sampleFrame)
      ("JUNCTION".toList ++ ' ' :: ("100".toList ++ ' ' :: ("50".toList ++ [])))
      ).2.m_frame.undoList =
      (SCH_AGENT.new sampleFrame).m_frame.undoList ++
        [⟨"Ollama agent operation",
          [(SCH_ITEM.SCH_JUNCTION ⟨sampleMmToIU "100".toList, sampleMmToIU "50".toList⟩,
            7)]⟩] ∧
    sampleMmToIU "100".toList = 1000000 ∧ sampleMmToIU "50".toList = 500000 :=
  ⟨by decide, by decide, rfl, by decide,
    (C12_happy_path_junction sampleMmToIU "100".toList "50".toList [] (by decide) (by decide)
      (Or.inl rfl) (by decide)).2.2.1 (SCH_AGENT.new sampleFrame) 7 rfl,
    by decide, by decide⟩

/-! ## White space around a line -/

theorem dropWhile_append_all (p : Char → Bool) (a b : List Char) (h : ∀ c ∈ a, p c = true) :
    (a ++ b).dropWhile p = b.dropWhile p := by
  induction a with
  | nil => rfl
  | cons d t ih =>
    have hd : p d = true := h d (by simp)
    simp only [List.cons_append, List.dropWhile_cons, hd, if_true]
    exact ih (fun c hc => h c (by simp [hc]))

/-- White space at the end of a token is trimmed. -/
theorem Trim_append_all_spaces (l w : List Char) (hw : ∀ c ∈ w, isspace c = true) :
    Trim (l ++ w) = Trim l := by
  unfold Trim
  rw [List.reverse_append,
    dropWhile_append_all isspace _ _ (fun c hc => hw c (List.mem_reverse.mp hc))]

/-- What a token emits depends on its trimmed line only. -/
theorem lineCall_append_spaces (mmToIU : ScannedDouble → Int) (l w : List Char)
    (hw : ∀ c ∈ w, isspace c = true) : lineCall mmToIU (l ++ w) = lineCall mmToIU l := by
  unfold lineCall
  rw [Trim_append_all_spaces l w hw]

/-- C13, as amended (white space around a line). `Trim()` removes white space at the end of
a line only. For every line `L` without a line feed and every non-empty string `w` of spaces
and tabs, `w` followed by `L` emits no command, whatever `L` is, and `L` followed by `w` emits
what `L` emits; so `"  JUNCTION 1 2"` emits nothing, and `"  # note"` emits nothing, as a
comment does. -/
theorem C13_white_space_around_line (mmToIU : ScannedDouble → Int) (w L : List Char)
    (hw : ∀ c ∈ w, c = ' ' ∨ c = '\t') (hne : w ≠ []) (hL : '\n' ∉ L) :
    emitted mmToIU (w ++ L) = [] ∧
    emitted mmToIU (L ++ w) = emitted mmToIU L ∧
    emitted mmToIU "  JUNCTION 1 2".toList = [] ∧
    emitted mmToIU "  # note".toList = [] := by
  have hsp : ∀ c ∈ w, isspace c = true := by
    intro c hc
    rcases hw c hc with h | h <;> subst h <;> decide
  have hnw : '\n' ∉ w := by
    intro hm
    rcases hw _ hm with h | h <;> exact absurd h (by decide)
  refine ⟨?_, ?_, ?_, ?_⟩
  · cases w with
    | nil => exact absurd rfl hne
    | cons c t =>
      have hnl : '\n' ∉ c :: t ++ L := by
        intro hm
        rcases List.mem_append.mp hm with h | h
        · exact hnw h
        · exact hL h
      rw [emitted_single mmToIU _ hnl, List.cons_append,
        lineCall_none_of_head mmToIU c (t ++ L) (Or.inr (hsp c (by simp)))]
      rfl
  · rw [emitted_single mmToIU _ (by simp [List.mem_append, hnw, hL]),
      emitted_single mmToIU _ hL, lineCall_append_spaces mmToIU L w hsp]
  · rw [emitted_single mmToIU _ (by decide)]
    have e := lineCall_none_of_head mmToIU ' ' " JUNCTION 1 2".toList (Or.inr (by decide))
    have e2 : "  JUNCTION 1 2".toList = ' ' :: " JUNCTION 1 2".toList := by decide
    rw [e2, e]
    rfl
  · rw [emitted_single mmToIU _ (by decide)]
    have e := lineCall_none_of_head mmToIU ' ' " # note".toList (Or.inr (by decide))
    have e2 : "  # note".toList = ' ' :: " # note".toList := by decide
    rw [e2, e]
    rfl

/-- C13, as amended, at a tab and a space before, and after, `JUNCTION 1 2`. -/
theorem C13_white_space_around_line_witness :
    (∀ c ∈ ['\t', ' '], c = ' ' ∨ c = '\t') ∧ ['\t', ' '] ≠ [] ∧
    '\n' ∉ "JUNCTION 1 2".toList ∧
    emitted sampleMmToIU (['\t', ' '] ++ "JUNCTION 1 2".toList) = [] ∧
    emitted sampleMmToIU ("JUNCTION 1 2".toList ++ ['\t', ' ']) =
      emitted sampleMmToIU "JUNCTION 1 2".toList ∧
    emitted sampleMmToIU "JUNCTION 1 2".toList = [AgentCall.AddJunction ⟨10000, 20000⟩] :=
  ⟨by decide, by decide, by decide,
    (C13_white_space_around_line sampleMmToIU ['\t', ' '] "JUNCTION 1 2".toList (by decide)
      (by decide) (by decide)).1,
    (C13_white_space_around_line sampleMmToIU ['\t', ' '] "JUNCTION 1 2".toList (by decide)
      (by decide) (by decide)).2.1,
    by decide⟩

/-- C13 as stated fails: `JUNCTION 1 2` emits a junction, and the same line after two spaces
emits nothing. -/
theorem C13_counterexample :
    emitted sampleMmToIU "JUNCTION 1 2".toList = [AgentCall.AddJunction ⟨10000, 20000⟩] ∧
    emitted sampleMmToIU ("  ".toList ++ "JUNCTION 1 2".toList) = [] ∧
    emitted sampleMmToIU ("  ".toList ++ "JUNCTION 1 2".toList) ≠
      emitted sampleMmToIU "JUNCTION 1 2".toList := by
  decide

/-! ## Lines that do not begin with a keyword and a number -/

/-- A token for which a command is emitted is one on which `wxSscanf` assigns a value after
one of the four keywords. -/
theorem wxSscanf_of_lineCall (mmToIU : ScannedDouble → Int) (token : wxString)
    (c : AgentCall) (h : lineCall mmToIU token = some c) :
    wxSscanf token "JUNCTION" 2 ≠ [] ∨ wxSscanf token "WIRE" 4 ≠ [] ∨
      wxSscanf token "LABEL" 2 ≠ [] ∨ wxSscanf token "TEXT" 2 ≠ [] := by
  have hp : parseLine mmToIU (Trim token) = some c := by
    unfold lineCall at h
    split at h
    · exact absurd h (by simp)
    · exact h
  rw [← wxSscanf_Trim token "JUNCTION" 2 (by decide), ← wxSscanf_Trim token "WIRE" 4 (by decide),
    ← wxSscanf_Trim token "LABEL" 2 (by decide), ← wxSscanf_Trim token "TEXT" 2 (by decide)]
  unfold parseLine at hp
  split at hp
  · refine Or.inl ?_
    intro he
    simp [he] at hp
  · split at hp
    · refine Or.inr (Or.inl ?_)
      intro he
      simp [he] at hp
    · split at hp
      · refine Or.inr (Or.inr (Or.inl ?_))
        intro he
        simp [he] at hp
      · split at hp
        · refine Or.inr (Or.inr (Or.inr ?_))
          intro he
          simp [he] at hp
        · exact absurd hp (by simp)

theorem scanDoubles_of_scanDouble_none (n : Nat) (rest : List Char)
    (h : scanDouble rest = none) : scanDoubles n rest = [] := by
  cases n with
  | zero => rfl
  | succ n => rw [scanDoubles_succ, h]

theorem wxSscanf_of_not_isPrefix (line : wxString) (keyword : String) (n : Nat)
    (h : ¬ keyword.toList <+: line) : wxSscanf line keyword n = [] := by
  by_contra hne
  exact h (isPrefix_of_wxSscanf line keyword n hne)

theorem takeWhile_append_all (p : Char → Bool) (a b : List Char) (h : ∀ c ∈ a, p c = true) :
    (a ++ b).takeWhile p = a ++ b.takeWhile p := by
  induction a with
  | nil => rfl
  | cons d t ih =>
    have hd : p d = true := h d (by simp)
    simp only [List.cons_append, List.takeWhile_cons, hd, if_true]
    rw [ih (fun c hc => h c (by simp [hc]))]

/-- A keyword that begins a line begins its first token. -/
theorem isPrefix_firstToken (kw line : List Char) (hk : isToken kw = true)
    (h : kw <+: line) : kw <+: firstToken line := by
  obtain ⟨v, rfl⟩ := h
  unfold firstToken
  rw [(dropWhile_isspace_of_isToken kw v hk).1, takeWhile_append_all]
  · exact List.prefix_append _ _
  · intro c hc
    simp only [isToken, Bool.and_eq_true, List.all_eq_true] at hk
    exact hk.2 c hc

/-- A keyword in upper case that begins a text begins it after conversion to upper case. -/
theorem isPrefix_Upper (kw l : List Char) (hk : Upper kw = kw) (h : kw <+: l) :
    kw <+: Upper l := by
  obtain ⟨v, rfl⟩ := h
  have e : Upper (kw ++ v) = kw ++ Upper v := by
    unfold Upper at hk ⊢
    rw [List.map_append, hk]
  rw [e]
  exact List.prefix_append _ _

/-- C14, as amended (leading tokens that are not a keyword). No command is emitted for a
line whose first token does not begin with one of `JUNCTION`, `WIRE`, `LABEL`, `TEXT`,
compared without regard to case, nor for a line that begins with one of them in upper case
followed by text from which `%lf` reads no number (`WIRES 1 2 3 4`). A token made of a
keyword in upper case directly followed by the beginning of a number is read as the keyword
and the number: `WIRE1 2 3 4` emits the wire from (1, 2) to (3, 4) and `JUNCTION100 50` the
junction at (100, 50). -/
theorem C14_unknown_leading_token (mmToIU : ScannedDouble → Int) :
    (∀ token : wxString, (∀ kw ∈ keywords, ¬ kw <+: Upper (firstToken token)) →
      lineCall mmToIU token = none) ∧
    (∀ kw ∈ keywords, ∀ rest : List Char, scanDouble rest = none →
      lineCall mmToIU (kw ++ rest) = none) ∧
    emitted mmToIU "WIRES 1 2 3 4".toList = [] ∧
    emitted mmToIU "WIRE1 2 3 4".toList =
      [AgentCall.AddWire ⟨mmToIU ['1'], mmToIU ['2']⟩ ⟨mmToIU ['3'], mmToIU ['4']⟩] ∧
    emitted mmToIU "JUNCTION100 50".toList =
      [AgentCall.AddJunction ⟨mmToIU ['1', '0', '0'], mmToIU ['5', '0']⟩] := by
  have hb : ∀ kw ∈ keywords, ∀ rest : List Char, scanDouble rest = none →
      lineCall mmToIU (kw ++ rest) = none := by
    intro kw hk rest hs
    cases hl : lineCall mmToIU (kw ++ rest) with
    | none => rfl
    | some c =>
      exfalso
      have hsc := wxSscanf_of_lineCall mmToIU _ c hl
      simp only [keywords, List.mem_cons, List.mem_singleton, List.not_mem_nil,
        or_false] at hk
      rcases hk with hk | hk | hk | hk <;> subst hk
      · rw [wxSscanf_keyword_append, scanDoubles_of_scanDouble_none _ _ hs,
          wxSscanf_of_not_isPrefix _ "WIRE" 4 (by simp [String.toList]),
          wxSscanf_of_not_isPrefix _ "LABEL" 2 (by simp [String.toList]),
          wxSscanf_of_not_isPrefix _ "TEXT" 2 (by simp [String.toList])] at hsc
        simp at hsc
      · rw [wxSscanf_keyword_append, scanDoubles_of_scanDouble_none _ _ hs,
          wxSscanf_of_not_isPrefix _ "JUNCTION" 2 (by simp [String.toList]),
          wxSscanf_of_not_isPrefix _ "LABEL" 2 (by simp [String.toList]),
          wxSscanf_of_not_isPrefix _ "TEXT" 2 (by simp [String.toList])] at hsc
        simp at hsc
      · rw [wxSscanf_keyword_append, scanDoubles_of_scanDouble_none _ _ hs,
          wxSscanf_of_not_isPrefix _ "JUNCTION" 2 (by simp [String.toList]),
          wxSscanf_of_not_isPrefix _ "WIRE" 4 (by simp [String.toList]),
          wxSscanf_of_not_isPrefix _ "TEXT" 2 (by simp [String.toList])] at hsc
        simp at hsc
      · rw [wxSscanf_keyword_append, scanDoubles_of_scanDouble_none _ _ hs,
          wxSscanf_of_not_isPrefix _ "JUNCTION" 2 (by simp [String.toList]),
          wxSscanf_of_not_isPrefix _ "WIRE" 4 (by simp [String.toList]),
          wxSscanf_of_not_isPrefix _ "LABEL" 2 (by simp [String.toList])] at hsc
        simp at hsc
  refine ⟨?_, hb, ?_, ?_, ?_⟩
  · intro token hno
    cases hl : lineCall mmToIU token with
    | none => rfl
    | some c =>
      exfalso
      rcases isPrefix_of_lineCall mmToIU token c hl with h | h | h | h
      · exact hno "JUNCTION".toList (by simp [keywords])
          (isPrefix_Upper _ _ (by decide) (isPrefix_firstToken _ token (by decide) h))
      · exact hno "WIRE".toList (by simp [keywords])
          (isPrefix_Upper _ _ (by decide) (isPrefix_firstToken _ token (by decide) h))
      · exact hno "LABEL".toList (by simp [keywords])
          (isPrefix_Upper _ _ (by decide) (isPrefix_firstToken _ token (by decide) h))
      · exact hno "TEXT".toList (by simp [keywords])
          (isPrefix_Upper _ _ (by decide) (isPrefix_firstToken _ token (by decide) h))
  · have e : "WIRES 1 2 3 4".toList = "WIRE".toList ++ "S 1 2 3 4".toList := by decide
    rw [emitted_single mmToIU _ (by decide), e,
      hb "WIRE".toList (by simp [keywords]) "S 1 2 3 4".toList (by decide)]
    rfl
  · rw [emitted_single mmToIU _ (by decide), lineCall_WIRE mmToIU _ (by decide)]
    have e : wxSscanf "WIRE1 2 3 4".toList "WIRE" 4 = [['1'], ['2'], ['3'], ['4']] := by
      decide
    rw [e]
    rfl
  · rw [emitted_single mmToIU _ (by decide), lineCall_JUNCTION mmToIU _ (by decide)]
    have e : wxSscanf "JUNCTION100 50".toList "JUNCTION" 2 = [['1', '0', '0'], ['5', '0']] := by
      decide
    rw [e]
    rfl

/-- C14, as amended, at `Sure, WIRE 1 1 2 2`, whose first token is `Sure,`, and at
`LABELS 5 5 x`, where no number follows the keyword. -/
theorem C14_unknown_leading_token_witness :
    firstToken "Sure, WIRE 1 1 2 2".toList = "Sure,".toList ∧
    (∀ kw ∈ keywords, ¬ kw <+: Upper (firstToken "Sure, WIRE 1 1 2 2".toList)) ∧
    lineCall sampleMmToIU "Sure, WIRE 1 1 2 2".toList = none ∧
    "LABEL".toList ∈ keywords ∧ scanDouble "S 5 5 x".toList = none ∧
    lineCall sampleMmToIU ("LABEL".toList ++ "S 5 5 x".toList) = none :=
  ⟨by decide, by decide,
    (C14_unknown_leading_token sampleMmToIU).1 "Sure, WIRE 1 1 2 2".toList (by decide),
    by decide, by decide,
    (C14_unknown_leading_token sampleMmToIU).2.1 "LABEL".toList (by decide)
      "S 5 5 x".toList (by decide)⟩

/-- C14 as stated fails: the first tokens `WIRE1` and `JUNCTION100` are not keywords, in
whatever case, yet `WIRE1 2 3 4` emits a wire and `JUNCTION100 50` a junction. -/
theorem C14_counterexample :
    firstToken "WIRE1 2 3 4".toList = "WIRE1".toList ∧
    Upper (firstToken "WIRE1 2 3 4".toList) ∉ keywords ∧
    emitted sampleMmToIU "WIRE1 2 3 4".toList =
      [AgentCall.AddWire ⟨10000, 20000⟩ ⟨30000, 40000⟩] ∧
    firstToken "JUNCTION100 50".toList = "JUNCTION100".toList ∧
    Upper (firstToken "JUNCTION100 50".toList) ∉ keywords ∧
    emitted sampleMmToIU "JUNCTION100 50".toList =
      [AgentCall.AddJunction ⟨1000000, 500000⟩] := by
  decide

/-! ## Batches, once more -/

/-- C15 (`BeginBatch` discards the pending transaction and does not nest). For all sequences
`A` and `B` of `AddX` calls on a bound session, `BeginBatch(); A; BeginBatch(); B;
EndBatch(msg)` pushes nothing before `EndBatch` and then exactly one transaction, described
by `msg`, holding exactly the primitives of `B` in call order and none of `A`; the session
ends outside a batch with an empty pending transaction. -/
theorem C15_begin_batch_restarts (a : SCH_AGENT) (scr : SCH_SCREEN)
    (h : a.m_screen = some scr) (A B : List AgentCall) (msg : String) :
    (runCalls B (runCalls A a.BeginBatch).BeginBatch).m_frame.undoList =
      a.m_frame.undoList ∧
    ((runCalls B (runCalls A a.BeginBatch).BeginBatch).EndBatch msg).m_frame.undoList =
      a.m_frame.undoList ++ [⟨msg, B.map (fun c => (c.item, scr))⟩] ∧
    ((runCalls B (runCalls A a.BeginBatch).BeginBatch).EndBatch msg).m_inBatch = false ∧
    ((runCalls B (runCalls A a.BeginBatch).BeginBatch).EndBatch msg).m_commit =
      SCH_COMMIT.fresh := by
  have hs : a.BeginBatch.m_screen = some scr := by simp [SCH_AGENT.BeginBatch, h]
  have hb : a.BeginBatch.m_inBatch = true := by simp [SCH_AGENT.BeginBatch]
  rw [runCalls_inBatch A _ scr hs hb]
  rw [runCalls_inBatch B _ scr (by simp [SCH_AGENT.BeginBatch, h])
    (by simp [SCH_AGENT.BeginBatch])]
  simp [SCH_AGENT.BeginBatch, SCH_AGENT.EndBatch, SCH_COMMIT.Push, SCH_COMMIT.fresh]

/-- C15 at a junction added in a first batch that is restarted, and a wire and a label added
after the restart. -/
theorem C15_begin_batch_restarts_witness :
    (SCH_AGENT.new sampleFrame).m_screen = some 7 ∧
    ((runCalls [AgentCall.AddWire ⟨0, 0⟩ ⟨5, 5⟩, AgentCall.AddLabel ⟨3, 4⟩ ['A']]
      (runCalls [AgentCall.AddJunction ⟨1, 2⟩]
        (SCH_AGENT.new sampleFrame).BeginBatch).BeginBatch).EndBatch "msg").m_frame.undoList =
      (SCH_AGENT.new sampleFrame).m_frame.undoList ++
        [⟨"msg",
          [AgentCall.AddWire ⟨0, 0⟩ ⟨5, 5⟩, AgentCall.AddLabel ⟨3, 4⟩ ['A']].map
            (fun c => (c.item, 7))⟩] :=
  ⟨rfl,
    (C15_begin_batch_restarts (SCH_AGENT.new sampleFrame) 7 rfl [AgentCall.AddJunction ⟨1, 2⟩]
      [AgentCall.AddWire ⟨0, 0⟩ ⟨5, 5⟩, AgentCall.AddLabel ⟨3, 4⟩ ['A']] "msg").2.1⟩

/-! ## A single double quote -/

/-- Trimming a line with one double quote keeps the quote and what is before it. -/
theorem Trim_one_quote (p q : List Char) : Trim (p ++ '"' :: q) = p ++ '"' :: Trim q :=
  Trim_append_cons p '"' q (by decide)

/-- C17, as amended (a single double quote). For every line in which `%lf` reads two
coordinates after `LABEL` (or `TEXT`) and which has exactly one double quote, no command is
emitted: the fallback to the text after the third space is taken only when the line has no
double quote at all. `LABEL 5 5 "VCC` emits nothing. -/
theorem C17_single_quote (mmToIU : ScannedDouble → Int) (token : wxString)
    (x y : ScannedDouble) (p q : List Char)
    (htoken : token = p ++ '"' :: q) (hp : '"' ∉ p) (hq : '"' ∉ q) :
    (wxSscanf token "LABEL" 2 = [x, y] → lineCall mmToIU token = none) ∧
    (wxSscanf token "TEXT" 2 = [x, y] → lineCall mmToIU token = none) ∧
    emitted mmToIU "LABEL 5 5 \"VCC".toList = [] := by
  have hq2 : '"' ∉ Trim q := fun hm => hq ((Trim_isPrefix q).subset hm)
  have ht : extractText (Trim token) = [] := by
    rw [htoken, Trim_one_quote, extractText_one_quote p _ hp hq2]
  refine ⟨?_, ?_, ?_⟩
  · intro h
    rw [lineCall_LABEL mmToIU token x y h, ht]
    rfl
  · intro h
    rw [lineCall_TEXT mmToIU token x y h, ht]
    rfl
  · rw [emitted_single mmToIU _ (by decide),
      lineCall_LABEL mmToIU _ ['5'] ['5'] (by decide)]
    have he : extractText (Trim "LABEL 5 5 \"VCC".toList) = [] := by decide
    rw [he]
    rfl

/-- C17, as amended, at `TEXT 1 2 say "hi`. -/
theorem C17_single_quote_witness :
    "TEXT 1 2 say \"hi".toList = "TEXT 1 2 say ".toList ++ '"' :: "hi".toList ∧
    '"' ∉ "TEXT 1 2 say ".toList ∧ '"' ∉ "hi".toList ∧
    wxSscanf "TEXT 1 2 say \"hi".toList "TEXT" 2 = [['1'], ['2']] ∧
    lineCall sampleMmToIU "TEXT 1 2 say \"hi".toList = none :=
  ⟨by decide, by decide, by decide, by decide,
    (C17_single_quote sampleMmToIU "TEXT 1 2 say \"hi".toList ['1'] ['2']
      "TEXT 1 2 say ".toList "hi".toList (by decide) (by decide) (by decide)).2.1
      (by decide)⟩

/-- C17 as stated fails: `LABEL 5 5 "VCC` has two coordinates and exactly one double quote,
the remainder after its third space-separated token is not empty, and no label is
emitted. -/
theorem C17_counterexample :
    wxSscanf "LABEL 5 5 \"VCC".toList "LABEL" 2 = [['5'], ['5']] ∧
    List.count '"' "LABEL 5 5 \"VCC".toList = 1 ∧
    remainderAfterThirdToken (Trim "LABEL 5 5 \"VCC".toList) = "\"VCC".toList ∧
    emitted sampleMmToIU "LABEL 5 5 \"VCC".toList = [] := by
  decide

/-! ## A session without a surface, and one transaction for each reply -/

/-- C18, as amended (`ParseAndExecute` on an unbound session). When the agent has no bound
document surface, for every input text `ParseAndExecute` adds no primitive to the document
(the one transaction it pushes is empty, and the session ends outside a batch with an empty
pending transaction), and it returns `true` exactly when some line was read as a command,
although nothing was applied; for `JUNCTION 1 2` it returns `true`. -/
theorem C18_unbound_session (mmToIU : ScannedDouble → Int) (ag : SCH_AGENT)
    (h : ag.m_screen = none) (s : wxString) :
    (ParseAndExecute mmToIU ag s).2.m_frame.undoList =
      ag.m_frame.undoList ++ [⟨"Ollama agent operation", []⟩] ∧
    (ParseAndExecute mmToIU ag s).2.m_commit = SCH_COMMIT.fresh ∧
    (ParseAndExecute mmToIU ag s).2.m_inBatch = false ∧
    ((ParseAndExecute mmToIU ag s).1 = true ↔
      ∃ l ∈ splitLines s, ∃ c, lineCall mmToIU l = some c) ∧
    (ParseAndExecute mmToIU ag "JUNCTION 1 2".toList).1 = true := by
  refine ⟨?_, ?_, ?_, ?_, ?_⟩
  · rw [ParseAndExecute_unbound mmToIU ag h]
  · rw [ParseAndExecute_unbound mmToIU ag h]
  · rw [ParseAndExecute_unbound mmToIU ag h]
  · rw [ParseAndExecute_eq, emitted_eq_lines]
    simp only [Bool.not_eq_true', List.isEmpty_eq_false]
    constructor
    · intro hne
      obtain ⟨c, hc⟩ := List.exists_mem_of_ne_nil _ hne
      obtain ⟨l, hl, hlc⟩ := List.mem_filterMap.mp hc
      exact ⟨l, hl, c, hlc⟩
    · rintro ⟨l, hl, c, hlc⟩
      exact List.ne_nil_of_mem (List.mem_filterMap.mpr ⟨l, hl, hlc⟩)
  · rw [ParseAndExecute_eq, emitted_single mmToIU _ (by decide),
      lineCall_JUNCTION mmToIU _ (by decide)]
    have e : wxSscanf "JUNCTION 1 2".toList "JUNCTION" 2 = [['1'], ['2']] := by decide
    rw [e]
    rfl

/-- C18, as amended, at a new session on a frame without a screen. -/
theorem C18_unbound_session_witness :
    (SCH_AGENT.new unboundFrame).m_screen = none ∧
    (ParseAndExecute sampleMmToIU (SCH_AGENT.new unboundFrame)
      "JUNCTION 1 2\nWIRE 1 1 2 2".toList).2.m_frame.undoList =
      (SCH_AGENT.new unboundFrame).m_frame.undoList ++ [⟨"Ollama agent operation", []⟩] ∧
    (ParseAndExecute sampleMmToIU (SCH_AGENT.new unboundFrame)
      "JUNCTION 1 2\nWIRE 1 1 2 2".toList).1 = true :=
  ⟨rfl,
    (C18_unbound_session sampleMmToIU (SCH_AGENT.new unboundFrame) rfl
      "JUNCTION 1 2\nWIRE 1 1 2 2".toList).1,
    by decide⟩

/-- C18 as stated fails: on a session without a bound surface `JUNCTION 1 2` adds no
primitive, and `ParseAndExecute` returns `true`. -/
theorem C18_counterexample :
    (SCH_AGENT.new unboundFrame).m_screen = none ∧
    (SCH_AGENT.AddJunction (SCH_AGENT.new unboundFrame).BeginBatch ⟨10000, 20000⟩).1 = false ∧
    (ParseAndExecute sampleMmToIU (SCH_AGENT.new unboundFrame) "JUNCTION 1 2".toList).1 =
      true ∧
    (ParseAndExecute sampleMmToIU (SCH_AGENT.new unboundFrame)
      "JUNCTION 1 2".toList).2.m_frame.undoList = [⟨"Ollama agent operation", []⟩] := by
  decide

/-- C19 (one transaction for each reply). For every input text and every state of a bound
session, whatever is pending and whether or not a batch is open, `ParseAndExecute` pushes
exactly one transaction, described `Ollama agent operation`, holding one primitive for each
emitted command in line order (none when no command was read, and the call then returns
`false`); what was pending before the call is in no transaction; and the session ends
outside a batch with an empty pending transaction. -/
theorem C19_one_transaction_per_reply (mmToIU : ScannedDouble → Int) (ag : SCH_AGENT)
    (scr : SCH_SCREEN) (h : ag.m_screen = some scr) (s : wxString) :
    (ParseAndExecute mmToIU ag s).2.m_frame.undoList =
      ag.m_frame.undoList ++
        [⟨"Ollama agent operation", (emitted mmToIU s).map (fun c => (c.item, scr))⟩] ∧
    (emitted mmToIU s = [] →
      (ParseAndExecute mmToIU ag s).1 = false ∧
      (ParseAndExecute mmToIU ag s).2.m_frame.undoList =
        ag.m_frame.undoList ++ [⟨"Ollama agent operation", []⟩]) ∧
    (∀ (pending : SCH_COMMIT) (inBatch : Bool),
      ParseAndExecute mmToIU { ag with m_commit := pending, m_inBatch := inBatch } s =
        ParseAndExecute mmToIU ag s) ∧
    (ParseAndExecute mmToIU ag s).2.m_inBatch = false ∧
    (ParseAndExecute mmToIU ag s).2.m_commit = SCH_COMMIT.fresh := by
  refine ⟨?_, ?_, ?_, ?_, ?_⟩
  · rw [ParseAndExecute_bound mmToIU ag scr h]
  · intro he
    rw [ParseAndExecute_bound mmToIU ag scr h, he]
    exact ⟨rfl, rfl⟩
  · intro pending inBatch
    rw [ParseAndExecute_bound mmToIU ag scr h, ParseAndExecute_bound mmToIU _ scr (by exact h)]
  · rw [ParseAndExecute_bound mmToIU ag scr h]
  · rw [ParseAndExecute_bound mmToIU ag scr h]

/-- C19 at a session with an open batch and a pending junction, for a reply of three lines
of which two are commands. -/
theorem C19_one_transaction_per_reply_witness :
    (⟨sampleFrame, some 7, ⟨[(SCH_ITEM.SCH_JUNCTION ⟨9, 9⟩, 7)]⟩, true⟩ : SCH_AGENT).m_screen =
      some 7 ∧
    (ParseAndExecute sampleMmToIU
      ⟨sampleFrame, some 7, ⟨[(SCH_ITEM.SCH_JUNCTION ⟨9, 9⟩, 7)]⟩, true⟩
      "JUNCTION 1 2\nok\nLABEL 5 5 \"VCC\"".toList).2.m_frame.undoList =
      sampleFrame.undoList ++
        [⟨"Ollama agent operation",
          (emitted sampleMmToIU "JUNCTION 1 2\nok\nLABEL 5 5 \"VCC\"".toList).map
            (fun c => (c.item, 7))⟩] ∧
    (emitted sampleMmToIU "JUNCTION 1 2\nok\nLABEL 5 5 \"VCC\"".toList).map
        (fun c => (c.item, 7)) =
      [(SCH_ITEM.SCH_JUNCTION ⟨10000, 20000⟩, 7),
        (SCH_ITEM.SCH_LABEL ⟨50000, 50000⟩ ['V', 'C', 'C'], 7)] :=
  ⟨rfl,
    (C19_one_transaction_per_reply sampleMmToIU
      ⟨sampleFrame, some 7, ⟨[(SCH_ITEM.SCH_JUNCTION ⟨9, 9⟩, 7)]⟩, true⟩ 7 rfl
      "JUNCTION 1 2\nok\nLABEL 5 5 \"VCC\"".toList).1,
    by decide⟩

/-! ## The reply of the server -/

theorem json.contains_eq_field (j : json) (key : String) :
    j.contains key = (j.field key).isSome := by
  cases j with
  | object members =>
    simp only [json.contains, json.field, Option.isSome_map']
    rw [Bool.eq_iff_iff, List.any_eq_true, List.find?_isSome]
  | _ => rfl

theorem json.at_of_field (j : json) (key : String) (v : json) (h : j.field key = some v) :
    j.at key = v := by
  cases j with
  | object members =>
    simp only [json.field] at h
    simp only [json.at]
    cases hf : members.find? (fun kv => kv.1 == key) with
    | none => simp [hf] at h
    | some kv =>
      rw [hf] at h
      simpa using h
  | _ => simp [json.field] at h

/-- Without a field `response` in the body, `ChatCompletion` returns `false` and leaves
`aResponse` as it was. -/
theorem ChatCompletion_without_response (curl : KICAD_CURL_EASY) (aResponse : String)
    (response : json) (hr : curl.performResult = 0) (hb : curl.parsedBuffer = some response)
    (hc : response.contains "response" = false) :
    ChatCompletion (some curl) aResponse = (false, aResponse) := by
  by_cases he : response.contains "error" = true
  · cases hg : (response.at "error").get_string <;>
      simp [ChatCompletion, hr, hb, hc, he, hg]
  · simp [ChatCompletion, hr, hb, hc, he]

/-- C16, as amended (the reply of the server). `ChatCompletion` tests the field `response`
before the field `error`. It returns `true` exactly when the transport succeeded and the body
is a JSON object whose field `response` is a string, and `aResponse` is then exactly that
string, whether or not the body has a field `error` as well. For a successfully transported
body that has a field `error` and no field `response` it returns `false` and leaves
`aResponse` as it was. -/
theorem C16_server_reply (m_curl : Option KICAD_CURL_EASY) (aResponse : String) :
    ((ChatCompletion m_curl aResponse).1 = true ↔
      ∃ curl response text, m_curl = some curl ∧ curl.performResult = 0 ∧
        curl.parsedBuffer = some response ∧
        response.field "response" = some (json.string text)) ∧
    (∀ curl response text, m_curl = some curl → curl.performResult = 0 →
      curl.parsedBuffer = some response →
      response.field "response" = some (json.string text) →
      ChatCompletion m_curl aResponse = (true, text)) ∧
    (∀ curl response err, m_curl = some curl → curl.performResult = 0 →
      curl.parsedBuffer = some response →
      response.field "error" = some err → response.field "response" = none →
      ChatCompletion m_curl aResponse = (false, aResponse)) := by
  have hpos : ∀ curl response text, m_curl = some curl → curl.performResult = 0 →
      curl.parsedBuffer = some response →
      response.field "response" = some (json.string text) →
      ChatCompletion m_curl aResponse = (true, text) := by
    intro curl response text hm hr hb hf
    subst hm
    have hc : response.contains "response" = true := by
      rw [json.contains_eq_field, hf]; rfl
    simp [ChatCompletion, hr, hb, hc, json.at_of_field _ _ _ hf, json.get_string]
  refine ⟨⟨?_, ?_⟩, hpos, ?_⟩
  · intro h
    cases m_curl with
    | none => simp [ChatCompletion] at h
    | some curl =>
      by_cases hr : curl.performResult = 0
      · cases hb : curl.parsedBuffer with
        | none => simp [ChatCompletion, hr, hb] at h
        | some response =>
          cases hf : response.field "response" with
          | none =>
            have hc : response.contains "response" = false := by
              rw [json.contains_eq_field, hf]; rfl
            rw [ChatCompletion_without_response curl aResponse response hr hb hc] at h
            simp at h
          | some v =>
            have hc : response.contains "response" = true := by
              rw [json.contains_eq_field, hf]; rfl
            have ha := json.at_of_field _ _ _ hf
            cases v with
            | string text => exact ⟨curl, response, text, rfl, hr, hb, hf⟩
            | _ => simp [ChatCompletion, hr, hb, hc, ha, json.get_string] at h
      · simp [ChatCompletion, hr] at h
  · rintro ⟨curl, response, text, hm, hr, hb, hf⟩
    rw [hpos curl response text hm hr hb hf]
  · intro curl response err hm hr hb he hn
    subst hm
    have hc : response.contains "response" = false := by
      rw [json.contains_eq_field, hn]; rfl
    exact ChatCompletion_without_response curl aResponse response hr hb hc

/-- C16, as amended, at the body `{"error": "model not found"}`, which gives `false`, and at
the body `{"response": "WIRE 1 1 2 2", "done": true}`, which gives `true` and the text. -/
theorem C16_server_reply_witness :
    (json.object [("error", json.string "model not found")]).field "error" =
      some (json.string "model not found") ∧
    (json.object [("error", json.string "model not found")]).field "response" = none ∧
    ChatCompletion
      (some ⟨0, some (json.object [("error", json.string "model not found")])⟩) "old" =
      (false, "old") ∧
    ChatCompletion
      (some ⟨0, some (json.object
        [("response", json.string "WIRE 1 1 2 2"), ("done", json.boolean true)])⟩) "old" =
      (true, "WIRE 1 1 2 2") :=
  ⟨rfl, rfl,
    (C16_server_reply
      (some ⟨0, some (json.object [("error", json.string "model not found")])⟩) "old").2.2
      _ _ _ rfl rfl rfl rfl rfl,
    (C16_server_reply
      (some ⟨0, some (json.object
        [("response", json.string "WIRE 1 1 2 2"), ("done", json.boolean true)])⟩) "old").2.1
      _ _ _ rfl rfl rfl rfl⟩

/-- C16 as stated fails: the body `{"response": "hi", "error": "boom"}` is a JSON object
with a field `error`, the transport succeeded, and `ChatCompletion` returns `true`. -/
theorem C16_counterexample :
    (json.object [("response", json.string "hi"), ("error", json.string "boom")]).contains
      "error" = true ∧
    ChatCompletion
      (some ⟨0, some (json.object
        [("response", json.string "hi"), ("error", json.string "boom")])⟩) "" =
      (true, "hi") := by
  decide

end KiCad
